import Mathlib

/-!
Verification of the EmojiUploader reconciler (`src/operation/emoji.py`,
`src/main.py`) against its natural-language specification.

The Python program synchronizes a local directory of image files with a
remote application-emoji collection.  We shallowly embed it:

* the persisted cache (`self.emojis_cache`, a JSON-backed Python dict
  mapping emoji name to `{'id': ..., 'key': ...}`) becomes an association
  list `Cache` with the dict operations `cacheGet`, `cacheSet`,
  `cacheErase` (Python dict semantics: lookup of the entry, in-place
  update / append on assignment, removal on `del`);
* the filesystem and the two content-derived functions (`hashlib.md5(...).hexdigest()`
  and `base64.b64encode(...)`) become fields of an `Env` record: `fs`
  maps a path to its content (`none` when the file does not exist or
  cannot be read), `hash` and `b64` are arbitrary functions standing for
  the MD5 hex digest and the base64 encoder;
* the remote HTTP service becomes a `Service` record giving the status
  and body of the listing request and, deterministically per request
  data, the response to create and delete requests;
* every network request the program issues is recorded as an `Event`,
  together with every cache persistence (`_save_cache`).
-/

/-- One value of the Python dict `self.emojis_cache`:
`{'id': emoji_data['id'], 'key': emoji_key}` (src/operation/emoji.py:82). -/
structure CacheEntry where
  id : String
  key : String
  deriving DecidableEq, Repr

/-- The cache dict, keyed by emoji logical name.  Python dicts iterate in
insertion order and have unique keys; we model them as association lists
(uniqueness of keys, where needed, is an explicit `Nodup` hypothesis). -/
abbrev Cache := List (String × CacheEntry)

/-- One element of the remote listing (`_get_application_emojis` reads
`emoji["name"]` and `emoji["id"]` from each). -/
structure RemoteEmoji where
  id : String
  name : String
  deriving DecidableEq, Repr

/-- The remote service as seen through the three HTTP calls the program
makes during one run.  `createFn name payload` returns
(status, created id, error text); `deleteFn id` returns the status. -/
structure Service where
  listStatus : Nat
  listBody : List RemoteEmoji
  createFn : String → String → Nat × String × String
  deleteFn : String → Nat

/-- The local environment of one run: directory path, `os.listdir`
result, file contents, and the two content-derived encoders. -/
structure Env where
  dir : String
  listing : List String
  fs : String → Option String
  hash : String → String
  b64 : String → String

/-- Observable actions of a run: the three kinds of HTTP request
(with the response data relevant to the program), and cache saves. -/
inductive Event where
  | listReq (status : Nat)
  | createReq (name payload : String) (status : Nat) (newId : String)
  | deleteReq (id : String) (status : Nat)
  | save
  deriving DecidableEq, Repr

namespace Event

/-- The request succeeded: 200 for list, 201 for create, 204 for delete
(`_save_cache` always succeeds in the model). -/
def success : Event → Bool
  | .listReq st => st == 200
  | .createReq _ _ st _ => st == 201
  | .deleteReq _ st => st == 204
  | .save => true

def isCreateReq : Event → Bool
  | .createReq _ _ _ _ => true
  | _ => false

def isDeleteReq : Event → Bool
  | .deleteReq _ _ => true
  | _ => false

def isSave : Event → Bool
  | .save => true
  | _ => false

/-- A create request for the given emoji name. -/
def isCreateFor (n : String) : Event → Bool
  | .createReq m _ _ _ => m == n
  | _ => false

/-- A delete request for the given remote id. -/
def isDeleteId (i : String) : Event → Bool
  | .deleteReq j _ => j == i
  | _ => false

end Event

/-! ### Dict operations (Python dict semantics on association lists) -/

/-- `d.get(n)` / `d[n]`: first entry with the key. -/
def cacheGet (c : Cache) (n : String) : Option CacheEntry :=
  match c with
  | [] => none
  | (k, e) :: rest => if k = n then some e else cacheGet rest n

/-- `d[n] = e`: replace in place if the key is present, append otherwise. -/
def cacheSet (c : Cache) (n : String) (e : CacheEntry) : Cache :=
  match c with
  | [] => [(n, e)]
  | (k, e0) :: rest =>
    if k = n then (k, e) :: rest else (k, e0) :: cacheSet rest n e

/-- `del d[n]`: remove the entry with the key. -/
def cacheErase (c : Cache) (n : String) : Cache :=
  match c with
  | [] => []
  | (k, e) :: rest => if k = n then rest else (k, e) :: cacheErase rest n

/-- The cached remote id of a name (used to state deletion-pass traces). -/
def cacheIdOf (c : Cache) (n : String) : String :=
  match cacheGet c n with
  | some e => e.id
  | none => ""

/-! ### Filename handling -/

/-- `os.path.join(self.image_directory, filename)` (no trailing separator
on the directory, as in the source's usage). -/
def joinPath (dir f : String) : String := dir ++ "/" ++ f

/-- Python `str.endswith(suffix)` (case-sensitive byte/char comparison). -/
def strEndsWith (s suffix : String) : Bool :=
  suffix.data.isSuffixOf s.data

/-- The filter `f.endswith((".png", ".jpg", ".jpeg", ".gif"))`
(src/operation/emoji.py:116). -/
def isImageFile (f : String) : Bool :=
  strEndsWith f ".png" || strEndsWith f ".jpg" ||
    strEndsWith f ".jpeg" || strEndsWith f ".gif"

/-- `os.path.splitext(f)[0]` for a plain filename (no path separators):
the part before the last dot, except that a leading run of dots is never
treated as starting an extension (CPython's `genericpath._splitext`). -/
def splitextRoot (f : String) : String :=
  match f.data.reverse.dropWhile (fun c => c ≠ '.') with
  | [] => f
  | _ :: before =>
    if before.any (fun c => c ≠ '.') then ⟨before.reverse⟩ else f

/-! ### The manager's operations (src/operation/emoji.py) -/

/-- `_generate_emoji_key`: MD5 hex digest of the file's bytes, `None` if
the file cannot be read (lines 30–37). -/
def generateEmojiKey (env : Env) (path : String) : Option String :=
  (env.fs path).map env.hash

/-- `_image_to_base64`: base64 of the file's bytes; `None` if the file
does not exist or cannot be read (lines 39–49). -/
def imageToBase64 (env : Env) (path : String) : Option String :=
  (env.fs path).map env.b64

/-- The `image` field of the creation payload (line 74). -/
def mkPayload (b : String) : String := "data:image/png;base64," ++ b

/-- `_get_application_emojis` (lines 51–60): on 200 return the body's
emoji sequence, otherwise log and return the empty list.  (The body of a
200 response is modelled directly as the emoji list; the source's
`isinstance(emojis, list)` / `emojis.get("items", [])` distinction is
about the two JSON shapes of that same sequence.) -/
def getApplicationEmojis (svc : Service) : List RemoteEmoji × List Event :=
  if svc.listStatus = 200 then (svc.listBody, [Event.listReq svc.listStatus])
  else ([], [Event.listReq svc.listStatus])

/-- `_create_application_emoji` (lines 62–92).  Returns (result, new
cache, events): `None` without a request if the image cannot be read or
encodes to the empty (falsy) string; on 201 it stores
`{'id': emoji_data['id'], 'key': emoji_key}` (provided the re-hash
produces a truthy key) and saves the cache; on any other status it
returns `None` leaving the cache untouched. -/
def createApplicationEmoji (env : Env) (svc : Service) (c : Cache)
    (path name : String) : Option String × Cache × List Event :=
  match imageToBase64 env path with
  | none => (none, c, [])
  | some b =>
    if b = "" then (none, c, [])
    else
      let payload := mkPayload b
      let res := svc.createFn name payload
      if res.1 = 201 then
        let c2 :=
          match generateEmojiKey env path with
          | some k => if k = "" then c else cacheSet c name ⟨res.2.1, k⟩
          | none => c
        (some res.2.1, c2, [Event.createReq name payload res.1 res.2.1, Event.save])
      else
        (none, c, [Event.createReq name payload res.1 res.2.1])

/-- `_delete_emoji` (lines 94–102): one DELETE request; both the 204 and
the non-204 outcome only log, nothing is raised and no state changes. -/
def deleteEmojiEvents (svc : Service) (emojiId : String) : List Event :=
  [Event.deleteReq emojiId (svc.deleteFn emojiId)]

/-- The list comprehension at line 119: cached names whose logical name
is no longer present in the directory listing. -/
def emojisToDelete (c : Cache) (localNames : List String) : List String :=
  (c.map Prod.fst).filter (fun n => !(localNames.contains n))

/-- The deletion loop (lines 121–125): for each stale name, issue the
delete request for its cached id, then remove the entry.  (The `none`
branch is unreachable when the names are the cache's own keys.) -/
def deletionPass (svc : Service) : Cache → List String → Cache × List Event
  | c, [] => (c, [])
  | c, n :: ns =>
    match cacheGet c n with
    | some e =>
      let rest := deletionPass svc (cacheErase c n) ns
      (rest.1, Event.deleteReq e.id (svc.deleteFn e.id) :: rest.2)
    | none => deletionPass svc c ns

/-- The body of the creation/update loop (lines 129–146) for one file:
if a remote emoji of the same logical name exists in the fetched
snapshot, compare the cached key against a fresh fingerprint and replace
(delete then create) when they differ; otherwise create. -/
def processFile (env : Env) (svc : Service) (existing : List RemoteEmoji)
    (c : Cache) (f : String) : Cache × List Event :=
  let path := joinPath env.dir f
  let name := splitextRoot f
  match existing.find? (fun m => m.name == name) with
  | some ex =>
    let oldKey := (cacheGet c name).map CacheEntry.key
    let newKey := generateEmojiKey env path
    if oldKey ≠ newKey then
      let r := createApplicationEmoji env svc c path name
      (r.2.1, deleteEmojiEvents svc ex.id ++ r.2.2)
    else (c, [])
  | none =>
    let r := createApplicationEmoji env svc c path name
    (r.2.1, r.2.2)

/-- The creation/update loop over all image files. -/
def pass2 (env : Env) (svc : Service) (existing : List RemoteEmoji) :
    Cache → List String → Cache × List Event
  | c, [] => (c, [])
  | c, f :: fs =>
    let s := processFile env svc existing c f
    let rest := pass2 env svc existing s.1 fs
    (rest.1, s.2 ++ rest.2)

/-- The image files selected from the directory listing (line 116). -/
def imageFiles (env : Env) : List String :=
  env.listing.filter isImageFile

/-- `image_names_in_directory` (line 117), as the list underlying the set. -/
def localNames (env : Env) : List String :=
  (imageFiles env).map splitextRoot

/-- `process_images_in_directory` (lines 110–146): fetch the remote
listing, list image files, delete stale cached names, save the cache
once, then run the creation/update loop.  Result: final cache and the
trace of requests and saves in program order. -/
def processImagesInDirectory (env : Env) (svc : Service) (c : Cache) :
    Cache × List Event :=
  let ex := (getApplicationEmojis svc).1
  let toDel := emojisToDelete c (localNames env)
  let d := deletionPass svc c toDel
  let p := pass2 env svc ex d.1 (imageFiles env)
  (p.1, (getApplicationEmojis svc).2 ++ d.2 ++ [Event.save] ++ p.2)

/-- The fingerprint and encoding of one image are both obtainable: the
file is readable and neither derived string is falsy (MD5 digests are
never empty; base64 output is empty only for an empty file). -/
def readOk (env : Env) (f : String) : Bool :=
  match env.fs (joinPath env.dir f) with
  | some ct => env.b64 ct != "" && env.hash ct != ""
  | none => false

/-- Modelled from the spec (§6 External interfaces): the remote service
state evolution that the repository's code presupposes but does not
contain — a confirmed create (201) registers `{id, name}`, a confirmed
delete (204) removes the emoji with that id; failed requests and local
saves change nothing remotely. -/
def remoteAfter (remote : List RemoteEmoji) (evs : List Event) : List RemoteEmoji :=
  match evs with
  | [] => remote
  | e :: rest =>
    match e with
    | .deleteReq i st =>
      remoteAfter (if st = 204 then remote.filter (fun m => m.id ≠ i) else remote) rest
    | .createReq n _ st newId =>
      remoteAfter (if st = 201 then remote ++ [⟨newId, n⟩] else remote) rest
    | _ => remoteAfter remote rest

/-! ### `main` (src/main.py) -/

/-- The fields of `config.settings` that `main` consults (the `config`
module is not part of the repository; `None` models an unset value). -/
structure Settings where
  BOT_TOKEN : Option String
  APPLICATION_ID : Option String

/-- Python truthiness of an optional string: `None` and `""` are falsy. -/
def falsy : Option String → Bool
  | none => true
  | some s => s == ""

/-- `main` (src/main.py lines 12–18): if either credential is falsy, log
the error and return before constructing the manager; otherwise run the
reconciler. -/
def mainRun (st : Settings) (env : Env) (svc : Service) (c : Cache) :
    Except String (Cache × List Event) :=
  if falsy st.BOT_TOKEN || falsy st.APPLICATION_ID then
    Except.error "BOT_TOKEN and APPLICATION_ID required"
  else
    Except.ok (processImagesInDirectory env svc c)

/-- The events actually issued by `main`: none when the configuration
check fails. -/
def mainEvents (st : Settings) (env : Env) (svc : Service) (c : Cache) :
    List Event :=
  match mainRun st env svc c with
  | .error _ => []
  | .ok r => r.2

/-! ### Dict lemmas -/

theorem cacheGet_set_self (c : Cache) (n : String) (e : CacheEntry) :
    cacheGet (cacheSet c n e) n = some e := by
  induction c with
  | nil => simp [cacheSet, cacheGet]
  | cons he t ih =>
    obtain ⟨k, e0⟩ := he
    by_cases h : k = n <;> simp [cacheSet, cacheGet, h, ih]

theorem cacheGet_set_ne (c : Cache) {n m : String} (e : CacheEntry)
    (h : m ≠ n) : cacheGet (cacheSet c n e) m = cacheGet c m := by
  induction c with
  | nil =>
    have hnm : ¬n = m := fun hh => h hh.symm
    simp [cacheSet, cacheGet, hnm]
  | cons he t ih =>
    obtain ⟨k, e0⟩ := he
    by_cases hk : k = n
    · subst hk
      have hkm : ¬k = m := fun hh => h hh.symm
      simp [cacheSet, cacheGet, hkm]
    · simp [cacheSet, cacheGet, hk, ih]

theorem cacheGet_erase_ne (c : Cache) {n m : String} (h : m ≠ n) :
    cacheGet (cacheErase c n) m = cacheGet c m := by
  induction c with
  | nil => simp [cacheErase]
  | cons he t ih =>
    obtain ⟨k, e0⟩ := he
    by_cases hk : k = n
    · subst hk
      have hkm : ¬k = m := fun hh => h hh.symm
      simp [cacheErase, cacheGet, hkm]
    · simp [cacheErase, cacheGet, hk, ih]

theorem cacheErase_sublist (c : Cache) (n : String) :
    (cacheErase c n).Sublist c := by
  induction c with
  | nil => simp [cacheErase]
  | cons he t ih =>
    obtain ⟨k, e0⟩ := he
    by_cases hk : k = n
    · simp only [cacheErase, hk, if_pos rfl]
      exact List.sublist_cons_self _ _
    · simp only [cacheErase, hk, if_neg hk]
      exact ih.cons₂ _

theorem cacheErase_keys_nodup {c : Cache} (n : String)
    (h : (c.map Prod.fst).Nodup) :
    ((cacheErase c n).map Prod.fst).Nodup :=
  (((cacheErase_sublist c n).map Prod.fst).nodup h)

theorem mem_keys_iff_get {c : Cache} {n : String} :
    n ∈ c.map Prod.fst ↔ cacheGet c n ≠ none := by
  induction c with
  | nil => simp [cacheGet]
  | cons he t ih =>
    obtain ⟨k, e0⟩ := he
    by_cases hk : k = n
    · simp [cacheGet, hk]
    · have hnk : ¬n = k := fun hh => hk hh.symm
      simp [cacheGet, hk, hnk, ih]

theorem cacheGet_erase_self {c : Cache} (n : String)
    (h : (c.map Prod.fst).Nodup) : cacheGet (cacheErase c n) n = none := by
  induction c with
  | nil => simp [cacheErase, cacheGet]
  | cons he t ih =>
    obtain ⟨k, e0⟩ := he
    simp only [List.map_cons, List.nodup_cons] at h
    by_cases hk : k = n
    · subst hk
      simp only [cacheErase, if_pos rfl]
      by_contra hcon
      exact h.1 (mem_keys_iff_get.mpr hcon)
    · simp only [cacheErase, if_neg hk, cacheGet, if_neg hk]
      exact ih h.2

/-! ### Structure of the deletion pass -/

theorem deletionPass_get (svc : Service) (c : Cache) (names : List String)
    (hnd : (c.map Prod.fst).Nodup) (k : String) :
    cacheGet (deletionPass svc c names).1 k =
      if k ∈ names then none else cacheGet c k := by
  induction names generalizing c with
  | nil => simp [deletionPass]
  | cons n ns ih =>
    cases hc : cacheGet c n with
    | none =>
      simp only [deletionPass, hc]
      rw [ih c hnd]
      by_cases hk : k ∈ ns
      · simp [hk]
      · by_cases hkn : k = n
        · subst hkn
          simp [hk, hc]
        · simp [hk, hkn]
    | some e =>
      simp only [deletionPass, hc]
      rw [ih (cacheErase c n) (cacheErase_keys_nodup n hnd)]
      by_cases hk : k ∈ ns
      · simp [hk]
      · by_cases hkn : k = n
        · subst hkn
          simp [hk, cacheGet_erase_self k hnd]
        · simp [hk, hkn, cacheGet_erase_ne c hkn]

theorem deletionPass_trace (svc : Service) (c : Cache) (names : List String)
    (hnd : names.Nodup) (hpres : ∀ n ∈ names, cacheGet c n ≠ none) :
    (deletionPass svc c names).2 =
      names.map (fun n =>
        Event.deleteReq (cacheIdOf c n) (svc.deleteFn (cacheIdOf c n))) := by
  induction names generalizing c with
  | nil => simp [deletionPass]
  | cons n ns ih =>
    cases hc : cacheGet c n with
    | none => exact absurd hc (hpres n (List.mem_cons_self _ _))
    | some e =>
      have hnns : n ∉ ns := (List.nodup_cons.mp hnd).1
      have hid : cacheIdOf c n = e.id := by simp [cacheIdOf, hc]
      simp only [deletionPass, hc, List.map_cons, hid]
      refine congrArg _ ?_
      rw [ih (cacheErase c n) (List.nodup_cons.mp hnd).2 ?_]
      · refine List.map_congr_left ?_
        intro m hm
        have hmn : m ≠ n := fun hh => hnns (hh ▸ hm)
        rw [cacheIdOf, cacheGet_erase_ne c hmn]
        rfl
      · intro m hm
        have hmn : m ≠ n := fun hh => hnns (hh ▸ hm)
        rw [cacheGet_erase_ne c hmn]
        exact hpres m (List.mem_cons_of_mem _ hm)

/-! ### Structure of the creation/update pass -/

theorem createApplicationEmoji_cache (env : Env) (svc : Service) (c : Cache)
    (path name : String) :
    (createApplicationEmoji env svc c path name).2.1 = c ∨
    ∃ e, (createApplicationEmoji env svc c path name).2.1 = cacheSet c name e := by
  unfold createApplicationEmoji
  cases imageToBase64 env path with
  | none => exact Or.inl rfl
  | some b =>
    by_cases hb : b = ""
    · exact Or.inl (by simp [hb])
    · simp only [if_neg hb]
      by_cases h201 : (svc.createFn name (mkPayload b)).1 = 201
      · simp only [if_pos h201]
        cases generateEmojiKey env path with
        | none => exact Or.inl rfl
        | some k =>
          by_cases hk : k = ""
          · exact Or.inl (by simp [hk])
          · exact Or.inr
              ⟨⟨(svc.createFn name (mkPayload b)).2.1, k⟩, by simp [hk]⟩
      · exact Or.inl (by simp [h201])

/-- The events a single create can emit: a save, or a create request
carrying this emoji name. -/
theorem createApplicationEmoji_events (env : Env) (svc : Service) (c : Cache)
    (path name : String) :
    ∀ ev ∈ (createApplicationEmoji env svc c path name).2.2,
      ev = Event.save ∨ ∃ p st i, ev = Event.createReq name p st i := by
  unfold createApplicationEmoji
  cases imageToBase64 env path with
  | none => simp
  | some b =>
    by_cases hb : b = ""
    · simp [hb]
    · simp only [if_neg hb]
      by_cases h201 : (svc.createFn name (mkPayload b)).1 = 201
      · simp only [if_pos h201]
        intro ev hev
        simp only [List.mem_cons, List.not_mem_nil, or_false] at hev
        rcases hev with rfl | rfl
        · exact Or.inr ⟨_, _, _, rfl⟩
        · exact Or.inl rfl
      · simp only [if_neg h201]
        intro ev hev
        simp only [List.mem_cons, List.not_mem_nil, or_false] at hev
        subst hev
        exact Or.inr ⟨_, _, _, rfl⟩

/-- Unfolding of `processFile`, replacement branch: a remote emoji of the
name exists and the cached key differs from the fresh fingerprint. -/
theorem processFile_eq_replace {env : Env} {svc : Service}
    {ex : List RemoteEmoji} {c : Cache} {f : String} {emoji : RemoteEmoji}
    (hfind : ex.find? (fun x => x.name == splitextRoot f) = some emoji)
    (hkey : (cacheGet c (splitextRoot f)).map CacheEntry.key ≠
      generateEmojiKey env (joinPath env.dir f)) :
    processFile env svc ex c f =
      ((createApplicationEmoji env svc c (joinPath env.dir f)
          (splitextRoot f)).2.1,
       deleteEmojiEvents svc emoji.id ++
         (createApplicationEmoji env svc c (joinPath env.dir f)
           (splitextRoot f)).2.2) := by
  simp only [processFile, hfind, ne_eq, hkey, not_false_eq_true, if_pos]

/-- Unfolding of `processFile`, unchanged branch: a remote emoji of the
name exists and the cached key equals the fresh fingerprint. -/
theorem processFile_eq_unchanged {env : Env} {svc : Service}
    {ex : List RemoteEmoji} {c : Cache} {f : String} {emoji : RemoteEmoji}
    (hfind : ex.find? (fun x => x.name == splitextRoot f) = some emoji)
    (hkey : (cacheGet c (splitextRoot f)).map CacheEntry.key =
      generateEmojiKey env (joinPath env.dir f)) :
    processFile env svc ex c f = (c, []) := by
  simp only [processFile, hfind, hkey, ne_eq, not_true_eq_false, if_neg,
    not_false_eq_true]

/-- Unfolding of `processFile`, creation branch: no remote emoji of the
name exists in the fetched snapshot. -/
theorem processFile_eq_create {env : Env} {svc : Service}
    {ex : List RemoteEmoji} {c : Cache} {f : String}
    (hfind : ex.find? (fun x => x.name == splitextRoot f) = none) :
    processFile env svc ex c f =
      (createApplicationEmoji env svc c (joinPath env.dir f)
        (splitextRoot f)).2 := by
  simp only [processFile, hfind]

/-- The successful create in one equation: the service confirms with
201 on a readable, truthy-encoding image, so the entry is stored with
the fresh fingerprint and the cache is saved. -/
theorem createApplicationEmoji_success {env : Env} {svc : Service}
    (c : Cache) {path name ct : String} (hfs : env.fs path = some ct)
    (hb : env.b64 ct ≠ "") (hh : env.hash ct ≠ "")
    (h201 : (svc.createFn name (mkPayload (env.b64 ct))).1 = 201) :
    createApplicationEmoji env svc c path name =
      (some (svc.createFn name (mkPayload (env.b64 ct))).2.1,
       cacheSet c name
         ⟨(svc.createFn name (mkPayload (env.b64 ct))).2.1, env.hash ct⟩,
       [Event.createReq name (mkPayload (env.b64 ct)) 201
          (svc.createFn name (mkPayload (env.b64 ct))).2.1,
        Event.save]) := by
  simp [createApplicationEmoji, imageToBase64, generateEmojiKey, hfs, hb,
    hh, h201]

theorem processFile_get_ne (env : Env) (svc : Service)
    (ex : List RemoteEmoji) (c : Cache) (f : String) {m : String}
    (h : m ≠ splitextRoot f) :
    cacheGet (processFile env svc ex c f).1 m = cacheGet c m := by
  have hset : ∀ cc : Cache, cc = c ∨ (∃ e, cc = cacheSet c (splitextRoot f) e) →
      cacheGet cc m = cacheGet c m := by
    rintro cc (rfl | ⟨e, rfl⟩)
    · rfl
    · exact cacheGet_set_ne c e h
  cases hfind : ex.find? (fun x => x.name == splitextRoot f) with
  | some emoji =>
    by_cases hkey : (cacheGet c (splitextRoot f)).map CacheEntry.key =
        generateEmojiKey env (joinPath env.dir f)
    · rw [processFile_eq_unchanged hfind hkey]
    · rw [processFile_eq_replace hfind hkey]
      exact hset _ (createApplicationEmoji_cache env svc c _ _)
  | none =>
    rw [processFile_eq_create hfind]
    exact hset _ (createApplicationEmoji_cache env svc c _ _)

theorem pass2_get_ne (env : Env) (svc : Service) (ex : List RemoteEmoji)
    (c : Cache) (fs : List String) {m : String}
    (h : ∀ f ∈ fs, m ≠ splitextRoot f) :
    cacheGet (pass2 env svc ex c fs).1 m = cacheGet c m := by
  induction fs generalizing c with
  | nil => rfl
  | cons f fs ih =>
    simp only [pass2]
    rw [ih _ (fun g hg => h g (List.mem_cons_of_mem _ hg)),
      processFile_get_ne env svc ex c f (h f (List.mem_cons_self _ _))]

/-- The shapes an event emitted while processing file `f` can take:
a save, a delete of the snapshot's first emoji with `f`'s logical name,
or a create request for that name. -/
def fileEventShape (svc : Service) (ex : List RemoteEmoji) (f : String)
    (ev : Event) : Prop :=
  ev = Event.save ∨
  (∃ m, ex.find? (fun x => x.name == splitextRoot f) = some m ∧
    ev = Event.deleteReq m.id (svc.deleteFn m.id)) ∨
  (∃ p st i, ev = Event.createReq (splitextRoot f) p st i)

theorem processFile_events (env : Env) (svc : Service)
    (ex : List RemoteEmoji) (c : Cache) (f : String) :
    ∀ ev ∈ (processFile env svc ex c f).2, fileEventShape svc ex f ev := by
  cases hfind : ex.find? (fun x => x.name == splitextRoot f) with
  | some emoji =>
    by_cases hkey : (cacheGet c (splitextRoot f)).map CacheEntry.key =
        generateEmojiKey env (joinPath env.dir f)
    · rw [processFile_eq_unchanged hfind hkey]
      simp
    · rw [processFile_eq_replace hfind hkey]
      intro ev hev
      rcases List.mem_append.mp hev with hd | hc
      · simp only [deleteEmojiEvents, List.mem_cons, List.not_mem_nil,
          or_false] at hd
        subst hd
        exact Or.inr (Or.inl ⟨emoji, hfind, rfl⟩)
      · rcases createApplicationEmoji_events env svc c _ _ ev hc with h1 | h1
        · exact Or.inl h1
        · exact Or.inr (Or.inr h1)
  | none =>
    rw [processFile_eq_create hfind]
    intro ev hev
    rcases createApplicationEmoji_events env svc c _ _ ev hev with h1 | h1
    · exact Or.inl h1
    · exact Or.inr (Or.inr h1)

theorem pass2_events (env : Env) (svc : Service) (ex : List RemoteEmoji)
    (c : Cache) (fs : List String) :
    ∀ ev ∈ (pass2 env svc ex c fs).2,
      ∃ f ∈ fs, fileEventShape svc ex f ev := by
  induction fs generalizing c with
  | nil => simp [pass2]
  | cons f fs ih =>
    intro ev hev
    simp only [pass2, List.mem_append] at hev
    rcases hev with h | h
    · exact ⟨f, List.mem_cons_self _ _, processFile_events env svc ex c f ev h⟩
    · obtain ⟨g, hg, hsh⟩ := ih _ ev h
      exact ⟨g, List.mem_cons_of_mem _ hg, hsh⟩

/-- Anything in the listing used by the run is in the service's body. -/
theorem mem_getApplicationEmojis {svc : Service} {x : RemoteEmoji}
    (h : x ∈ (getApplicationEmojis svc).1) : x ∈ svc.listBody := by
  unfold getApplicationEmojis at h
  by_cases h200 : svc.listStatus = 200
  · simpa [h200] using h
  · simp [h200] at h

theorem pass2_cons (env : Env) (svc : Service) (ex : List RemoteEmoji)
    (c : Cache) (f : String) (fs : List String) :
    pass2 env svc ex c (f :: fs) =
      ((pass2 env svc ex (processFile env svc ex c f).1 fs).1,
       (processFile env svc ex c f).2 ++
         (pass2 env svc ex (processFile env svc ex c f).1 fs).2) := by
  simp [pass2]

theorem pass2_append (env : Env) (svc : Service) (ex : List RemoteEmoji)
    (c : Cache) (l1 l2 : List String) :
    pass2 env svc ex c (l1 ++ l2) =
      ((pass2 env svc ex (pass2 env svc ex c l1).1 l2).1,
       (pass2 env svc ex c l1).2 ++
         (pass2 env svc ex (pass2 env svc ex c l1).1 l2).2) := by
  induction l1 generalizing c with
  | nil => simp [pass2]
  | cons f fs ih =>
    simp only [List.cons_append, pass2_cons, ih, List.append_assoc]

theorem contains_iff_mem {l : List String} {n : String} :
    l.contains n = true ↔ n ∈ l := by
  simp [List.contains, List.elem_iff]

theorem mem_emojisToDelete {c : Cache} {lnames : List String} {n : String} :
    n ∈ emojisToDelete c lnames ↔
      n ∈ c.map Prod.fst ∧ lnames.contains n = false := by
  simp [emojisToDelete, List.mem_filter]

theorem emojisToDelete_nodup {c : Cache} (lnames : List String)
    (hnd : (c.map Prod.fst).Nodup) : (emojisToDelete c lnames).Nodup :=
  hnd.filter _

theorem emojisToDelete_present {c : Cache} {lnames : List String} :
    ∀ n ∈ emojisToDelete c lnames, cacheGet c n ≠ none := fun n hn =>
  mem_keys_iff_get.mp (mem_emojisToDelete.mp hn).1

theorem getApplicationEmojis_trace (svc : Service) :
    (getApplicationEmojis svc).2 = [Event.listReq svc.listStatus] := by
  unfold getApplicationEmojis
  split <;> rfl

/-- The run, decomposed into its phases. -/
theorem run_eq (env : Env) (svc : Service) (c : Cache) :
    processImagesInDirectory env svc c =
      ((pass2 env svc (getApplicationEmojis svc).1
          (deletionPass svc c (emojisToDelete c (localNames env))).1
          (imageFiles env)).1,
       Event.listReq svc.listStatus ::
         ((deletionPass svc c (emojisToDelete c (localNames env))).2 ++
          Event.save ::
           (pass2 env svc (getApplicationEmojis svc).1
             (deletionPass svc c (emojisToDelete c (localNames env))).1
             (imageFiles env)).2)) := by
  simp only [processImagesInDirectory, getApplicationEmojis_trace]
  simp

/-- Names collected in `localNames` are exactly the logical names of the
listed files with a supported extension. -/
theorem mem_localNames {env : Env} {n : String} :
    n ∈ localNames env ↔
      ∃ f ∈ env.listing, isImageFile f = true ∧ splitextRoot f = n := by
  simp only [localNames, imageFiles, List.mem_map, List.mem_filter]
  constructor
  · rintro ⟨f, ⟨hf, hi⟩, rfl⟩
    exact ⟨f, hf, hi, rfl⟩
  · rintro ⟨f, hf, hi, rfl⟩
    exact ⟨f, ⟨hf, hi⟩, rfl⟩

/-- A name outside `localNames` differs from every processed file's
logical name. -/
theorem not_mem_localNames_ne {env : Env} {n : String}
    (h : n ∉ localNames env) : ∀ f ∈ imageFiles env, n ≠ splitextRoot f := by
  intro f hf hcon
  exact h (hcon ▸ List.mem_map_of_mem splitextRoot hf)

/-- The final cache of a run, decomposed through the two passes for a
name that no processed file carries. -/
theorem run_get_stale {env : Env} {svc : Service} {c : Cache}
    (hnd : (c.map Prod.fst).Nodup) {n : String} (h : n ∉ localNames env) :
    cacheGet (processImagesInDirectory env svc c).1 n =
      if n ∈ emojisToDelete c (localNames env) then none else cacheGet c n := by
  simp only [processImagesInDirectory]
  rw [pass2_get_ne _ _ _ _ _ (not_mem_localNames_ne h),
    deletionPass_get svc c _ hnd]

/-- The deletion pass's trace never touches a given remote id when no
stale cached id equals it. -/
theorem deletionTrace_filter_deleteId (svc : Service) (c : Cache)
    (lnames : List String) {i : String}
    (h : ∀ m ∈ emojisToDelete c lnames, cacheIdOf c m ≠ i) :
    ((emojisToDelete c lnames).map (fun m =>
      Event.deleteReq (cacheIdOf c m) (svc.deleteFn (cacheIdOf c m)))).filter
        (Event.isDeleteId i) = [] := by
  rw [List.filter_eq_nil_iff]
  intro ev hev
  obtain ⟨m, hm, rfl⟩ := List.mem_map.mp hev
  simp [Event.isDeleteId, h m hm]

/-- The deletion pass's trace contains no create requests at all. -/
theorem deletionTrace_filter_createFor (svc : Service) (c : Cache)
    (lnames : List String) (n : String) :
    ((emojisToDelete c lnames).map (fun m =>
      Event.deleteReq (cacheIdOf c m) (svc.deleteFn (cacheIdOf c m)))).filter
        (Event.isCreateFor n) = [] := by
  rw [List.filter_eq_nil_iff]
  intro ev hev
  obtain ⟨m, _, rfl⟩ := List.mem_map.mp hev
  simp [Event.isCreateFor]

/-- Processing files whose logical names all differ from `n` issues no
delete request for an id that only `n`-named remote emojis carry, and no
create request for `n`. -/
theorem pass2_filter_other (env : Env) (svc : Service)
    (ex : List RemoteEmoji) (c : Cache) (l : List String) {n i : String}
    (hn : ∀ g ∈ l, n ≠ splitextRoot g)
    (hrem : ∀ m ∈ ex, m.id = i → m.name = n) :
    (pass2 env svc ex c l).2.filter (Event.isDeleteId i) = [] ∧
    (pass2 env svc ex c l).2.filter (Event.isCreateFor n) = [] := by
  constructor
  · rw [List.filter_eq_nil_iff]
    intro ev hev
    obtain ⟨g, hg, hsh⟩ := pass2_events env svc ex c l ev hev
    rcases hsh with rfl | ⟨m, hfind, rfl⟩ | ⟨p, st, j, rfl⟩
    · simp [Event.isDeleteId]
    · simp only [Event.isDeleteId, beq_iff_eq]
      intro hcon
      have hname : m.name = splitextRoot g := by
        have hp := List.find?_some hfind
        rwa [beq_iff_eq] at hp
      have h2 : m.name = n := hrem m (List.mem_of_find?_eq_some hfind) hcon
      exact hn g hg (h2.symm.trans hname)
    · simp [Event.isDeleteId]
  · rw [List.filter_eq_nil_iff]
    intro ev hev
    obtain ⟨g, hg, hsh⟩ := pass2_events env svc ex c l ev hev
    rcases hsh with rfl | ⟨m, hfind, rfl⟩ | ⟨p, st, j, rfl⟩
    · simp [Event.isCreateFor]
    · simp [Event.isCreateFor]
    · simp only [Event.isCreateFor, beq_iff_eq]
      intro hcon
      exact hn g hg hcon.symm

/-- The creation/update pass around one replaced file: processing
`l1 ++ f :: l2` where no other file shares `f`'s logical name and the
cached fingerprint differs from the fresh one issues, for that name and
id, exactly the adjacent delete-create pair (followed by the save of the
create), and stores the new id and fingerprint. -/
theorem pass2_replace_mid (env : Env) (svc : Service)
    (ex : List RemoteEmoji) (c : Cache) (l1 l2 : List String) (f : String)
    (exm : RemoteEmoji) (eOld : CacheEntry) (ct : String)
    (hne1 : ∀ g ∈ l1, splitextRoot f ≠ splitextRoot g)
    (hne2 : ∀ g ∈ l2, splitextRoot f ≠ splitextRoot g)
    (hfind : ex.find? (fun x => x.name == splitextRoot f) = some exm)
    (hentry : cacheGet c (splitextRoot f) = some eOld)
    (hct : env.fs (joinPath env.dir f) = some ct)
    (hdiff : env.hash ct ≠ eOld.key)
    (hb64 : env.b64 ct ≠ "") (hhash : env.hash ct ≠ "")
    (h201 : (svc.createFn (splitextRoot f) (mkPayload (env.b64 ct))).1 = 201)
    (hrem : ∀ m ∈ ex, m.id = exm.id → m.name = splitextRoot f) :
    ∃ P Q,
      (pass2 env svc ex c (l1 ++ f :: l2)).2 =
        P ++ Event.deleteReq exm.id (svc.deleteFn exm.id) ::
          Event.createReq (splitextRoot f) (mkPayload (env.b64 ct)) 201
            (svc.createFn (splitextRoot f) (mkPayload (env.b64 ct))).2.1 ::
          Event.save :: Q ∧
      P.filter (Event.isDeleteId exm.id) = [] ∧
      Q.filter (Event.isDeleteId exm.id) = [] ∧
      P.filter (Event.isCreateFor (splitextRoot f)) = [] ∧
      Q.filter (Event.isCreateFor (splitextRoot f)) = [] ∧
      cacheGet (pass2 env svc ex c (l1 ++ f :: l2)).1 (splitextRoot f) =
        some ⟨(svc.createFn (splitextRoot f) (mkPayload (env.b64 ct))).2.1,
          env.hash ct⟩ := by
  have hc1 : cacheGet (pass2 env svc ex c l1).1 (splitextRoot f) =
      some eOld := by
    rw [pass2_get_ne env svc ex c l1 hne1]
    exact hentry
  have hkey : (cacheGet (pass2 env svc ex c l1).1 (splitextRoot f)).map
      CacheEntry.key ≠ generateEmojiKey env (joinPath env.dir f) := by
    rw [hc1]
    simp only [generateEmojiKey, hct, Option.map_some]
    intro hcon
    exact hdiff (Option.some.inj hcon).symm
  have hstep : processFile env svc ex (pass2 env svc ex c l1).1 f =
      (cacheSet (pass2 env svc ex c l1).1 (splitextRoot f)
        ⟨(svc.createFn (splitextRoot f) (mkPayload (env.b64 ct))).2.1,
          env.hash ct⟩,
       [Event.deleteReq exm.id (svc.deleteFn exm.id),
        Event.createReq (splitextRoot f) (mkPayload (env.b64 ct)) 201
          (svc.createFn (splitextRoot f) (mkPayload (env.b64 ct))).2.1,
        Event.save]) := by
    rw [processFile_eq_replace hfind hkey,
      createApplicationEmoji_success _ hct hb64 hhash h201]
    rfl
  refine ⟨(pass2 env svc ex c l1).2,
    (pass2 env svc ex (cacheSet (pass2 env svc ex c l1).1 (splitextRoot f)
      ⟨(svc.createFn (splitextRoot f) (mkPayload (env.b64 ct))).2.1,
        env.hash ct⟩) l2).2, ?_, ?_, ?_, ?_, ?_, ?_⟩
  · rw [pass2_append, pass2_cons, hstep]
    simp
  · exact (pass2_filter_other env svc ex c l1 hne1 hrem).1
  · exact (pass2_filter_other env svc ex _ l2 hne2 hrem).1
  · exact (pass2_filter_other env svc ex c l1 hne1 hrem).2
  · exact (pass2_filter_other env svc ex _ l2 hne2 hrem).2
  · rw [pass2_append, pass2_cons, hstep]
    exact (pass2_get_ne env svc ex _ l2 hne2).trans (cacheGet_set_self _ _ _)

/-! ### Machinery for idempotence (claim C1) -/

theorem readOk_elim {env : Env} {f : String} (h : readOk env f = true) :
    ∃ ct, env.fs (joinPath env.dir f) = some ct ∧
      env.b64 ct ≠ "" ∧ env.hash ct ≠ "" := by
  unfold readOk at h
  cases hfs : env.fs (joinPath env.dir f) with
  | none => rw [hfs] at h; simp at h
  | some ct =>
    rw [hfs] at h
    simp only [Bool.and_eq_true, bne_iff_ne, ne_eq] at h
    exact ⟨ct, rfl, h.1, h.2⟩

/-- The create rejected by the service in one equation: the request is
issued and nothing else happens. -/
theorem createApplicationEmoji_statusFail {env : Env} {svc : Service}
    (c : Cache) {path name ct : String} (hfs : env.fs path = some ct)
    (hb : env.b64 ct ≠ "")
    (h201 : (svc.createFn name (mkPayload (env.b64 ct))).1 ≠ 201) :
    createApplicationEmoji env svc c path name =
      (none, c,
       [Event.createReq name (mkPayload (env.b64 ct))
          (svc.createFn name (mkPayload (env.b64 ct))).1
          (svc.createFn name (mkPayload (env.b64 ct))).2.1]) := by
  simp [createApplicationEmoji, imageToBase64, hfs, hb, h201]

theorem remoteAfter_append (R : List RemoteEmoji) (l1 l2 : List Event) :
    remoteAfter R (l1 ++ l2) = remoteAfter (remoteAfter R l1) l2 := by
  induction l1 generalizing R with
  | nil => rfl
  | cons e rest ih =>
    cases e with
    | listReq st => exact ih R
    | save => exact ih R
    | createReq n p st i => exact ih _
    | deleteReq i st => exact ih _

/-- A remote emoji survives any trace whose delete requests never target
its id (whatever their statuses). -/
theorem remoteAfter_mem {R : List RemoteEmoji} {m : RemoteEmoji}
    (hm : m ∈ R) {evs : List Event}
    (h : ∀ e ∈ evs, ∀ i st, e = Event.deleteReq i st → i ≠ m.id) :
    m ∈ remoteAfter R evs := by
  induction evs generalizing R with
  | nil => exact hm
  | cons e rest ih =>
    have hrest : ∀ e2 ∈ rest, ∀ i st, e2 = Event.deleteReq i st → i ≠ m.id :=
      fun e2 he2 => h e2 (List.mem_cons_of_mem _ he2)
    cases e with
    | listReq st => exact ih hm hrest
    | save => exact ih hm hrest
    | createReq n p st i =>
      refine ih ?_ hrest
      by_cases h201 : st = 201
      · simp only [h201, if_pos rfl]
        exact List.mem_append_left _ hm
      · simpa [h201] using hm
    | deleteReq i st =>
      have hne : i ≠ m.id := h _ (List.mem_cons_self _ _) i st rfl
      refine ih ?_ hrest
      by_cases h204 : st = 204
      · simp only [h204, if_pos rfl]
        refine List.mem_filter.mpr ⟨hm, ?_⟩
        simp only [ne_eq, decide_eq_true_eq]
        exact fun hh => hne hh.symm
      · simpa [h204] using hm

/-- A trace with no create requests only ever removes remote emojis. -/
theorem remoteAfter_subset_of_no_create {evs : List Event}
    (h : ∀ e ∈ evs, Event.isCreateReq e = false) :
    ∀ {R : List RemoteEmoji}, ∀ m ∈ remoteAfter R evs, m ∈ R := by
  induction evs with
  | nil => intro R m hm; exact hm
  | cons e rest ih =>
    have hrest : ∀ e2 ∈ rest, Event.isCreateReq e2 = false :=
      fun e2 he2 => h e2 (List.mem_cons_of_mem _ he2)
    intro R m hm
    cases e with
    | listReq st => exact ih hrest m hm
    | save => exact ih hrest m hm
    | createReq n p st i =>
      exact absurd (h _ (List.mem_cons_self _ _)) (by simp [Event.isCreateReq])
    | deleteReq i st =>
      have h2 := ih hrest m hm
      by_cases h204 : st = 204
      · rw [if_pos h204] at h2
        exact (List.mem_filter.mp h2).1
      · rwa [if_neg h204] at h2

/-- When the listed ids are pairwise distinct, an emoji named outside
the logical names of the remaining files survives their processing:
every delete those steps issue targets the id of an emoji carrying one
of those names. -/
theorem remote_survives (env : Env) (svc : Service) (ex : List RemoteEmoji)
    (R : List RemoteEmoji) (cc : Cache) (fs : List String) {nm : String}
    (hexnd : (ex.map RemoteEmoji.id).Nodup)
    (hIR : ∀ x ∈ R, x ∈ ex ∨ x.id ∉ ex.map RemoteEmoji.id)
    (hne : ∀ g ∈ fs, nm ≠ splitextRoot g)
    {m0 : RemoteEmoji} (hm0 : m0 ∈ R) (hname : m0.name = nm) :
    m0 ∈ remoteAfter R (pass2 env svc ex cc fs).2 := by
  apply remoteAfter_mem hm0
  intro e he i st heq
  subst heq
  obtain ⟨g, hg, hsh⟩ := pass2_events env svc ex cc fs _ he
  rcases hsh with hsv | ⟨mm, hfind, hdel⟩ | ⟨p, st2, j, hcr⟩
  · exact absurd hsv (by simp)
  · have hieq : i = mm.id := by
      injection hdel
    intro hcon
    have hmmname : mm.name = splitextRoot g := by
      have hp := List.find?_some hfind
      rwa [beq_iff_eq] at hp
    have hmm_ex : mm ∈ ex := List.mem_of_find?_eq_some hfind
    rcases hIR m0 hm0 with hmem | hnid
    · have heqm : mm = m0 :=
        List.inj_on_of_nodup_map hexnd hmm_ex hmem (by rw [← hieq, hcon])
      rw [heqm] at hmmname
      exact hne g hg (hname.symm.trans hmmname)
    · exact hnid (by
        rw [← hcon, hieq]
        exact List.mem_map_of_mem RemoteEmoji.id hmm_ex)
  · exact absurd hcr (by simp)

/-- Processing a list of files that are all already in sync (a remote
emoji of each name exists in the snapshot, and the cached fingerprint
matches the fresh one) does nothing. -/
theorem pass2_all_unchanged (env : Env) (svc : Service)
    (ex : List RemoteEmoji) :
    ∀ (files : List String) (cc : Cache),
    (∀ f ∈ files, ∃ m, ex.find? (fun x => x.name == splitextRoot f) = some m) →
    (∀ f ∈ files, (cacheGet cc (splitextRoot f)).map CacheEntry.key =
      generateEmojiKey env (joinPath env.dir f)) →
    pass2 env svc ex cc files = (cc, []) := by
  intro files
  induction files with
  | nil => intro cc _ _; rfl
  | cons f fs ih =>
    intro cc hfind hkeys
    obtain ⟨m, hm⟩ := hfind f (List.mem_cons_self _ _)
    rw [pass2_cons,
      processFile_eq_unchanged hm (hkeys f (List.mem_cons_self _ _)),
      ih cc (fun g hg => hfind g (List.mem_cons_of_mem _ hg))
        (fun g hg => hkeys g (List.mem_cons_of_mem _ hg))]
    rfl

/-- A name outside the directory's logical names is always absent from
the cache after a run. -/
theorem run_get_none_of_not_local {env : Env} {svc : Service} {c : Cache}
    (hnd : (c.map Prod.fst).Nodup) {k : String} (h : k ∉ localNames env) :
    cacheGet (processImagesInDirectory env svc c).1 k = none := by
  rw [run_get_stale hnd h]
  by_cases ht : k ∈ emojisToDelete c (localNames env)
  · simp [ht]
  · rw [if_neg ht]
    cases hc : cacheGet c k with
    | none => rfl
    | some e =>
      exfalso
      apply ht
      refine mem_emojisToDelete.mpr
        ⟨mem_keys_iff_get.mpr (by simp [hc]), ?_⟩
      cases hb : (localNames env).contains k with
      | false => rfl
      | true => exact absurd (contains_iff_mem.mp hb) h

/-- The synchronization invariant established by a fully successful
creation/update pass: afterwards every processed logical name has a
remote emoji in the evolved remote state, and a cache entry whose key is
the file's fresh fingerprint. -/
theorem pass2_sync (env : Env) (svc : Service) (ex : List RemoteEmoji)
    (hexnd : (ex.map RemoteEmoji.id).Nodup) :
    ∀ (files : List String) (cc : Cache) (R : List RemoteEmoji),
    (files.map splitextRoot).Nodup →
    (∀ f ∈ files, readOk env f = true) →
    (∀ ev ∈ (pass2 env svc ex cc files).2, Event.success ev = true) →
    (∀ ev ∈ (pass2 env svc ex cc files).2, ∀ n p st i,
      ev = Event.createReq n p st i → i ∉ ex.map RemoteEmoji.id) →
    (∀ f ∈ files,
      (ex.find? (fun x => x.name == splitextRoot f)).isSome = true →
      ∃ m ∈ R, m.name = splitextRoot f) →
    (∀ x ∈ R, x ∈ ex ∨ x.id ∉ ex.map RemoteEmoji.id) →
    ∀ f ∈ files,
      (∃ m ∈ remoteAfter R (pass2 env svc ex cc files).2,
        m.name = splitextRoot f) ∧
      (cacheGet (pass2 env svc ex cc files).1 (splitextRoot f)).map
        CacheEntry.key = (env.fs (joinPath env.dir f)).map env.hash := by
  intro files
  induction files with
  | nil =>
    intro cc R _ _ _ _ _ _ f hf
    exact absurd hf (List.not_mem_nil f)
  | cons f0 fs ih =>
    intro cc R hnodup hread hsucc hfresh hIex hIR f hf
    obtain ⟨ct, hct, hb64, hhash⟩ :=
      readOk_elim (hread f0 (List.mem_cons_self _ _))
    have hnodup' : (splitextRoot f0 :: fs.map splitextRoot).Nodup := by
      simpa using hnodup
    have hnotin := (List.nodup_cons.mp hnodup').1
    have hnodup2 := (List.nodup_cons.mp hnodup').2
    have hne0 : ∀ g ∈ fs, splitextRoot f0 ≠ splitextRoot g := by
      intro g hg hcon
      rw [hcon] at hnotin
      exact hnotin (List.mem_map_of_mem splitextRoot hg)
    have hread2 : ∀ g ∈ fs, readOk env g = true :=
      fun g hg => hread g (List.mem_cons_of_mem _ hg)
    suffices hMAIN : ∀ (ccs : Cache) (Tf : List Event)
        (R2 : List RemoteEmoji),
        processFile env svc ex cc f0 = (ccs, Tf) →
        remoteAfter R Tf = R2 →
        (cacheGet ccs (splitextRoot f0)).map CacheEntry.key =
          (env.fs (joinPath env.dir f0)).map env.hash →
        (∃ m ∈ R2, m.name = splitextRoot f0) →
        (∀ g ∈ fs,
          (ex.find? (fun x => x.name == splitextRoot g)).isSome = true →
          ∃ m ∈ R2, m.name = splitextRoot g) →
        (∀ x ∈ R2, x ∈ ex ∨ x.id ∉ ex.map RemoteEmoji.id) →
        (∃ m ∈ remoteAfter R (pass2 env svc ex cc (f0 :: fs)).2,
          m.name = splitextRoot f) ∧
        (cacheGet (pass2 env svc ex cc (f0 :: fs)).1 (splitextRoot f)).map
          CacheEntry.key = (env.fs (joinPath env.dir f)).map env.hash by
      cases hfind0 : ex.find? (fun x => x.name == splitextRoot f0) with
      | some exm =>
        have hexm_ex : exm ∈ ex := List.mem_of_find?_eq_some hfind0
        have hexm_name : exm.name = splitextRoot f0 := by
          have hp := List.find?_some hfind0
          rwa [beq_iff_eq] at hp
        by_cases holdkey : (cacheGet cc (splitextRoot f0)).map
            CacheEntry.key = generateEmojiKey env (joinPath env.dir f0)
        · refine hMAIN cc [] R (processFile_eq_unchanged hfind0 holdkey)
            rfl ?_ ?_ ?_ hIR
          · simpa [generateEmojiKey] using holdkey
          · exact hIex f0 (List.mem_cons_self _ _) (by rw [hfind0]; rfl)
          · exact fun g hg => hIex g (List.mem_cons_of_mem _ hg)
        · by_cases h201 : (svc.createFn (splitextRoot f0)
              (mkPayload (env.b64 ct))).1 = 201
          · have hstep : processFile env svc ex cc f0 =
                (cacheSet cc (splitextRoot f0)
                  ⟨(svc.createFn (splitextRoot f0)
                      (mkPayload (env.b64 ct))).2.1, env.hash ct⟩,
                 [Event.deleteReq exm.id (svc.deleteFn exm.id),
                  Event.createReq (splitextRoot f0) (mkPayload (env.b64 ct))
                    201 (svc.createFn (splitextRoot f0)
                      (mkPayload (env.b64 ct))).2.1,
                  Event.save]) := by
              rw [processFile_eq_replace hfind0 holdkey,
                createApplicationEmoji_success cc hct hb64 hhash h201]
              rfl
            have hdelmem : Event.deleteReq exm.id (svc.deleteFn exm.id) ∈
                (pass2 env svc ex cc (f0 :: fs)).2 := by
              rw [pass2_cons, hstep]
              exact List.mem_append_left _ (List.mem_cons_self _ _)
            have h204 : svc.deleteFn exm.id = 204 := by
              have hs := hsucc _ hdelmem
              simpa [Event.success] using hs
            have hcrmem : Event.createReq (splitextRoot f0)
                (mkPayload (env.b64 ct)) 201
                (svc.createFn (splitextRoot f0)
                  (mkPayload (env.b64 ct))).2.1 ∈
                (pass2 env svc ex cc (f0 :: fs)).2 := by
              rw [pass2_cons, hstep]
              exact List.mem_append_left _
                (List.mem_cons_of_mem _ (List.mem_cons_self _ _))
            have hJ : (svc.createFn (splitextRoot f0)
                (mkPayload (env.b64 ct))).2.1 ∉ ex.map RemoteEmoji.id :=
              hfresh _ hcrmem _ _ _ _ rfl
            have hRA : remoteAfter R
                [Event.deleteReq exm.id (svc.deleteFn exm.id),
                 Event.createReq (splitextRoot f0) (mkPayload (env.b64 ct))
                   201 (svc.createFn (splitextRoot f0)
                     (mkPayload (env.b64 ct))).2.1,
                 Event.save] =
                R.filter (fun x => x.id ≠ exm.id) ++
                  [⟨(svc.createFn (splitextRoot f0)
                      (mkPayload (env.b64 ct))).2.1, splitextRoot f0⟩] := by
              simp [remoteAfter, h204]
            refine hMAIN _ _ _ hstep hRA ?_ ?_ ?_ ?_
            · rw [cacheGet_set_self]
              simp [hct]
            · exact ⟨⟨(svc.createFn (splitextRoot f0)
                  (mkPayload (env.b64 ct))).2.1, splitextRoot f0⟩,
                List.mem_append_right _ (List.mem_cons_self _ _), rfl⟩
            · intro g hg hiss
              obtain ⟨m1, hm1, hm1n⟩ :=
                hIex g (List.mem_cons_of_mem _ hg) hiss
              refine ⟨m1, List.mem_append_left _
                (List.mem_filter.mpr ⟨hm1, ?_⟩), hm1n⟩
              simp only [ne_eq, decide_eq_true_eq]
              intro hcon
              rcases hIR m1 hm1 with hmem | hnid
              · have heqm : m1 = exm :=
                  List.inj_on_of_nodup_map hexnd hmem hexm_ex hcon
                rw [heqm] at hm1n
                exact hne0 g hg (hexm_name.symm.trans hm1n)
              · exact hnid (by
                  rw [hcon]
                  exact List.mem_map_of_mem RemoteEmoji.id hexm_ex)
            · intro x hx
              rcases List.mem_append.mp hx with hx1 | hx2
              · exact hIR x (List.mem_filter.mp hx1).1
              · right
                simp only [List.mem_singleton] at hx2
                rw [hx2]
                exact hJ
          · exfalso
            have hstepF : processFile env svc ex cc f0 =
                (cc, [Event.deleteReq exm.id (svc.deleteFn exm.id),
                  Event.createReq (splitextRoot f0) (mkPayload (env.b64 ct))
                    (svc.createFn (splitextRoot f0)
                      (mkPayload (env.b64 ct))).1
                    (svc.createFn (splitextRoot f0)
                      (mkPayload (env.b64 ct))).2.1]) := by
              rw [processFile_eq_replace hfind0 holdkey,
                createApplicationEmoji_statusFail cc hct hb64 h201]
              rfl
            have hcrmem : Event.createReq (splitextRoot f0)
                (mkPayload (env.b64 ct))
                (svc.createFn (splitextRoot f0)
                  (mkPayload (env.b64 ct))).1
                (svc.createFn (splitextRoot f0)
                  (mkPayload (env.b64 ct))).2.1 ∈
                (pass2 env svc ex cc (f0 :: fs)).2 := by
              rw [pass2_cons, hstepF]
              exact List.mem_append_left _
                (List.mem_cons_of_mem _ (List.mem_cons_self _ _))
            exact h201 (by simpa [Event.success] using hsucc _ hcrmem)
      | none =>
        by_cases h201 : (svc.createFn (splitextRoot f0)
            (mkPayload (env.b64 ct))).1 = 201
        · have hstep : processFile env svc ex cc f0 =
              (cacheSet cc (splitextRoot f0)
                ⟨(svc.createFn (splitextRoot f0)
                    (mkPayload (env.b64 ct))).2.1, env.hash ct⟩,
               [Event.createReq (splitextRoot f0) (mkPayload (env.b64 ct))
                  201 (svc.createFn (splitextRoot f0)
                    (mkPayload (env.b64 ct))).2.1,
                Event.save]) := by
            rw [processFile_eq_create hfind0,
              createApplicationEmoji_success cc hct hb64 hhash h201]
          have hcrmem : Event.createReq (splitextRoot f0)
              (mkPayload (env.b64 ct)) 201
              (svc.createFn (splitextRoot f0)
                (mkPayload (env.b64 ct))).2.1 ∈
              (pass2 env svc ex cc (f0 :: fs)).2 := by
            rw [pass2_cons, hstep]
            exact List.mem_append_left _ (List.mem_cons_self _ _)
          have hJ : (svc.createFn (splitextRoot f0)
              (mkPayload (env.b64 ct))).2.1 ∉ ex.map RemoteEmoji.id :=
            hfresh _ hcrmem _ _ _ _ rfl
          have hRA : remoteAfter R
              [Event.createReq (splitextRoot f0) (mkPayload (env.b64 ct))
                 201 (svc.createFn (splitextRoot f0)
                   (mkPayload (env.b64 ct))).2.1,
               Event.save] =
              R ++ [⟨(svc.createFn (splitextRoot f0)
                  (mkPayload (env.b64 ct))).2.1, splitextRoot f0⟩] := by
            simp [remoteAfter]
          refine hMAIN _ _ _ hstep hRA ?_ ?_ ?_ ?_
          · rw [cacheGet_set_self]
            simp [hct]
          · exact ⟨⟨(svc.createFn (splitextRoot f0)
                (mkPayload (env.b64 ct))).2.1, splitextRoot f0⟩,
              List.mem_append_right _ (List.mem_cons_self _ _), rfl⟩
          · intro g hg hiss
            obtain ⟨m1, hm1, hm1n⟩ :=
              hIex g (List.mem_cons_of_mem _ hg) hiss
            exact ⟨m1, List.mem_append_left _ hm1, hm1n⟩
          · intro x hx
            rcases List.mem_append.mp hx with hx1 | hx2
            · exact hIR x hx1
            · right
              simp only [List.mem_singleton] at hx2
              rw [hx2]
              exact hJ
        · exfalso
          have hstepF : processFile env svc ex cc f0 =
              (cc, [Event.createReq (splitextRoot f0)
                (mkPayload (env.b64 ct))
                (svc.createFn (splitextRoot f0)
                  (mkPayload (env.b64 ct))).1
                (svc.createFn (splitextRoot f0)
                  (mkPayload (env.b64 ct))).2.1]) := by
            rw [processFile_eq_create hfind0,
              createApplicationEmoji_statusFail cc hct hb64 h201]
          have hcrmem : Event.createReq (splitextRoot f0)
              (mkPayload (env.b64 ct))
              (svc.createFn (splitextRoot f0)
                (mkPayload (env.b64 ct))).1
              (svc.createFn (splitextRoot f0)
                (mkPayload (env.b64 ct))).2.1 ∈
              (pass2 env svc ex cc (f0 :: fs)).2 := by
            rw [pass2_cons, hstepF]
            exact List.mem_append_left _ (List.mem_cons_self _ _)
          exact h201 (by simpa [Event.success] using hsucc _ hcrmem)
    intro ccs Tf R2 hstep hRA hc0 hm0 hIex2 hIR2
    have hps : pass2 env svc ex cc (f0 :: fs) =
        ((pass2 env svc ex ccs fs).1,
         Tf ++ (pass2 env svc ex ccs fs).2) := by
      rw [pass2_cons, hstep]
    have htr2 : (pass2 env svc ex cc (f0 :: fs)).2 =
        Tf ++ (pass2 env svc ex ccs fs).2 := by rw [hps]
    have hcc2 : (pass2 env svc ex cc (f0 :: fs)).1 =
        (pass2 env svc ex ccs fs).1 := by rw [hps]
    have hsucc2 : ∀ ev ∈ (pass2 env svc ex ccs fs).2,
        Event.success ev = true := by
      intro ev hev
      exact hsucc ev (by
        rw [htr2]
        exact List.mem_append_right _ hev)
    have hfresh2 : ∀ ev ∈ (pass2 env svc ex ccs fs).2, ∀ n p st i,
        ev = Event.createReq n p st i → i ∉ ex.map RemoteEmoji.id := by
      intro ev hev
      exact hfresh ev (by
        rw [htr2]
        exact List.mem_append_right _ hev)
    have hRAc : remoteAfter R (pass2 env svc ex cc (f0 :: fs)).2 =
        remoteAfter R2 (pass2 env svc ex ccs fs).2 := by
      rw [htr2, remoteAfter_append, hRA]
    have hIH := ih ccs R2 hnodup2 hread2 hsucc2 hfresh2 hIex2 hIR2
    rcases List.mem_cons.mp hf with rfl | hf2
    · constructor
      · obtain ⟨m0, hm0R, hm0n⟩ := hm0
        refine ⟨m0, ?_, hm0n⟩
        rw [hRAc]
        exact remote_survives env svc ex R2 ccs fs hexnd hIR2 hne0 hm0R hm0n
      · rw [hcc2, pass2_get_ne env svc ex ccs fs hne0]
        exact hc0
    · obtain ⟨hrem, hcache⟩ := hIH f hf2
      exact ⟨by rw [hRAc]; exact hrem, by rw [hcc2]; exact hcache⟩

/-! Claim theorems for the simple operations. -/

/-- Claim C7: on a non-200 listing response the operation returns the
empty sequence (and only logs); on a 200 response it returns the
sequence of remote emojis from the response body. -/
theorem C7_listEmojis_degradation (svc : Service) :
    (svc.listStatus = 200 →
      getApplicationEmojis svc = (svc.listBody, [Event.listReq 200])) ∧
    (svc.listStatus ≠ 200 →
      getApplicationEmojis svc = ([], [Event.listReq svc.listStatus])) := by
  constructor <;> intro h <;> simp [getApplicationEmojis, h]

/-- Witness for C7 at a concrete failing and a concrete succeeding
service. -/
theorem C7_listEmojis_degradation_witness :
    getApplicationEmojis ⟨500, [⟨"1", "a"⟩], fun _ _ => (201, "x", ""), fun _ => 204⟩ =
      ([], [Event.listReq 500]) ∧
    getApplicationEmojis ⟨200, [⟨"1", "a"⟩], fun _ _ => (201, "x", ""), fun _ => 204⟩ =
      ([⟨"1", "a"⟩], [Event.listReq 200]) :=
  ⟨(C7_listEmojis_degradation _).2 (by decide),
   (C7_listEmojis_degradation _).1 (by decide)⟩

/-- Claim C8: a missing or empty `bot_token` or `application_id` makes
the program report an error and exit before the reconciler runs, so no
network request of any kind is issued. -/
theorem C8_config_precondition (st : Settings) (env : Env) (svc : Service)
    (c : Cache)
    (h : falsy st.BOT_TOKEN = true ∨ falsy st.APPLICATION_ID = true) :
    mainRun st env svc c = Except.error "BOT_TOKEN and APPLICATION_ID required" ∧
    mainEvents st env svc c = [] := by
  have hr : mainRun st env svc c =
      Except.error "BOT_TOKEN and APPLICATION_ID required" := by
    unfold mainRun
    rcases h with h | h <;> simp [h]
  exact ⟨hr, by simp [mainEvents, hr]⟩

/-- Witness for C8: an empty token aborts the run with no events. -/
theorem C8_config_precondition_witness :
    mainRun ⟨some "", some "appid"⟩
        ⟨"d", [], fun _ => none, id, id⟩
        ⟨200, [], fun _ _ => (201, "x", ""), fun _ => 204⟩ [] =
      Except.error "BOT_TOKEN and APPLICATION_ID required" ∧
    mainEvents ⟨some "", some "appid"⟩
        ⟨"d", [], fun _ => none, id, id⟩
        ⟨200, [], fun _ _ => (201, "x", ""), fun _ => 204⟩ [] = [] :=
  C8_config_precondition _ _ _ _ (Or.inl (by decide))

/-- Claim C4: the create operation returns the created data and updates
then persists the cache entry exactly when the service confirms with
201; when the image is unreadable, encodes to the falsy empty string, or
the service answers any non-201 status, it returns null and the cache is
neither changed nor persisted.  (The hypotheses that the encoder and the
digest are nonempty on the file's content hold for real base64 on a
nonempty file and for MD5 hex digests always.) -/
theorem C4_createEmoji_contract (env : Env) (svc : Service) (c : Cache)
    (path name : String) :
    (∀ ct, env.fs path = some ct → env.b64 ct ≠ "" → env.hash ct ≠ "" →
      (svc.createFn name (mkPayload (env.b64 ct))).1 = 201 →
      createApplicationEmoji env svc c path name =
        (some (svc.createFn name (mkPayload (env.b64 ct))).2.1,
         cacheSet c name
           ⟨(svc.createFn name (mkPayload (env.b64 ct))).2.1, env.hash ct⟩,
         [Event.createReq name (mkPayload (env.b64 ct)) 201
            (svc.createFn name (mkPayload (env.b64 ct))).2.1,
          Event.save])) ∧
    (env.fs path = none →
      createApplicationEmoji env svc c path name = (none, c, [])) ∧
    (∀ ct, env.fs path = some ct → env.b64 ct = "" →
      createApplicationEmoji env svc c path name = (none, c, [])) ∧
    (∀ ct, env.fs path = some ct → env.b64 ct ≠ "" →
      (svc.createFn name (mkPayload (env.b64 ct))).1 ≠ 201 →
      createApplicationEmoji env svc c path name =
        (none, c,
         [Event.createReq name (mkPayload (env.b64 ct))
            (svc.createFn name (mkPayload (env.b64 ct))).1
            (svc.createFn name (mkPayload (env.b64 ct))).2.1])) := by
  refine ⟨?_, ?_, ?_, ?_⟩
  · intro ct hfs hb hh h201
    simp [createApplicationEmoji, imageToBase64, generateEmojiKey, hfs, hb, hh, h201]
  · intro hfs
    simp [createApplicationEmoji, imageToBase64, hfs]
  · intro ct hfs hb
    simp [createApplicationEmoji, imageToBase64, hfs, hb]
  · intro ct hfs hb h201
    simp [createApplicationEmoji, imageToBase64, hfs, hb, h201]

/-- Witness for C4: a confirmed creation stores and saves the entry; a
rejected creation and a missing file leave the cache alone. -/
theorem C4_createEmoji_contract_witness :
    createApplicationEmoji
        ⟨"d", ["a.png"], (fun p => if p = "d/a.png" then some "x" else none),
         (fun s => "H" ++ s), (fun s => "B" ++ s)⟩
        ⟨200, [], (fun _ _ => (201, "7", "")), fun _ => 204⟩
        [] "d/a.png" "a" =
      (some "7", [("a", ⟨"7", "Hx"⟩)],
       [Event.createReq "a" "data:image/png;base64,Bx" 201 "7", Event.save]) ∧
    createApplicationEmoji
        ⟨"d", ["a.png"], (fun p => if p = "d/a.png" then some "x" else none),
         (fun s => "H" ++ s), (fun s => "B" ++ s)⟩
        ⟨200, [], (fun _ _ => (400, "7", "err")), fun _ => 204⟩
        [] "d/a.png" "a" =
      (none, [], [Event.createReq "a" "data:image/png;base64,Bx" 400 "7"]) ∧
    createApplicationEmoji
        ⟨"d", ["a.png"], (fun p => if p = "d/a.png" then some "x" else none),
         (fun s => "H" ++ s), (fun s => "B" ++ s)⟩
        ⟨200, [], (fun _ _ => (201, "7", "")), fun _ => 204⟩
        [] "d/missing.png" "a" =
      (none, [], []) := by
  refine ⟨?_, ?_, ?_⟩
  · exact (C4_createEmoji_contract _ _ _ _ _).1 "x" (by decide) (by decide)
      (by decide) (by decide)
  · exact (C4_createEmoji_contract _ _ _ _ _).2.2.2 "x" (by decide) (by decide)
      (by decide)
  · exact (C4_createEmoji_contract _ _ _ _ _).2.1 (by decide)

/-! ### Characterization of the extension filter and of `splitext` -/

theorem strEndsWith_iff {s suffix : String} :
    strEndsWith s suffix = true ↔ ∃ r : String, s = r ++ suffix := by
  unfold strEndsWith
  rw [List.isSuffixOf_iff_suffix]
  constructor
  · rintro ⟨t, ht⟩
    exact ⟨⟨t⟩, (String.ext (by rw [String.data_append]; exact ht)).symm⟩
  · rintro ⟨r, rfl⟩
    exact ⟨r.data, (String.data_append r suffix).symm⟩

theorem isImageFile_iff {f : String} :
    isImageFile f = true ↔
      ∃ r : String, f = r ++ ".png" ∨ f = r ++ ".jpg" ∨
        f = r ++ ".jpeg" ∨ f = r ++ ".gif" := by
  unfold isImageFile
  simp only [Bool.or_eq_true, strEndsWith_iff]
  constructor
  · rintro (((⟨r, h⟩ | ⟨r, h⟩) | ⟨r, h⟩) | ⟨r, h⟩)
    exacts [⟨r, Or.inl h⟩, ⟨r, Or.inr (Or.inl h)⟩,
      ⟨r, Or.inr (Or.inr (Or.inl h))⟩, ⟨r, Or.inr (Or.inr (Or.inr h))⟩]
  · rintro ⟨r, h | h | h | h⟩
    exacts [Or.inl (Or.inl (Or.inl ⟨r, h⟩)), Or.inl (Or.inl (Or.inr ⟨r, h⟩)),
      Or.inl (Or.inr ⟨r, h⟩), Or.inr ⟨r, h⟩]

/-- `os.path.splitext` removes a dot-initiated extension whose stem
contains at least one non-dot character. -/
theorem splitextRoot_append (r : String) (tail : List Char)
    (htail : ∀ ch ∈ tail, ch ≠ '.')
    (hr : r.data.any (fun ch => ch ≠ '.') = true) :
    splitextRoot (r ++ ⟨'.' :: tail⟩) = r := by
  have hdata : (r ++ ⟨'.' :: tail⟩).data = r.data ++ '.' :: tail :=
    String.data_append r ⟨'.' :: tail⟩
  have hdw : ((r ++ ⟨'.' :: tail⟩).data.reverse).dropWhile
      (fun c => c ≠ '.') = '.' :: r.data.reverse := by
    rw [hdata, List.reverse_append, List.reverse_cons, List.append_assoc,
      List.singleton_append, List.dropWhile_append]
    have h1 : List.dropWhile (fun c => decide (c ≠ '.')) tail.reverse = [] := by
      rw [List.dropWhile_eq_nil_iff]
      intro x hx
      simpa using htail x (List.mem_reverse.mp hx)
    rw [h1]
    simp
  simp only [splitextRoot, hdw, List.any_reverse, hr, if_true,
    List.reverse_reverse]

/-- Claim C6: every name in the deletion pass has its cache entry
removed locally whatever status the remote delete returns (`deleteFn` is
arbitrary, so in particular for failing responses), the pass issues its
one delete request per stale name without aborting, and after the whole
run the entry is still gone. -/
theorem C6_delete_failure_cache (env : Env) (svc : Service) (c : Cache)
    (hnd : (c.map Prod.fst).Nodup) (n : String)
    (hn : n ∈ emojisToDelete c (localNames env)) :
    cacheGet (deletionPass svc c (emojisToDelete c (localNames env))).1 n = none ∧
    (deletionPass svc c (emojisToDelete c (localNames env))).2 =
      (emojisToDelete c (localNames env)).map (fun m =>
        Event.deleteReq (cacheIdOf c m) (svc.deleteFn (cacheIdOf c m))) ∧
    cacheGet (processImagesInDirectory env svc c).1 n = none := by
  have hstale : n ∉ localNames env := by
    intro hcon
    have hcf := (mem_emojisToDelete.mp hn).2
    rw [contains_iff_mem.mpr hcon] at hcf
    simp at hcf
  refine ⟨?_, ?_, ?_⟩
  · rw [deletionPass_get svc c _ hnd]
    simp [hn]
  · exact deletionPass_trace svc c _ (emojisToDelete_nodup _ hnd)
      emojisToDelete_present
  · rw [run_get_stale hnd hstale]
    simp [hn]

/-- Witness for C6 at a service whose delete request fails with 500:
the stale entry is removed from the cache anyway. -/
theorem C6_delete_failure_cache_witness :
    cacheGet (deletionPass
        ⟨200, [], (fun _ _ => (500, "", "err")), fun _ => 500⟩
        [("old", ⟨"1", "K"⟩)]
        (emojisToDelete [("old", ⟨"1", "K"⟩)] (localNames
          ⟨"d", ["a.png"], (fun p => if p = "d/a.png" then some "x" else none),
           (fun s => "H" ++ s), (fun s => "B" ++ s)⟩))).1 "old" = none ∧
    (deletionPass
        ⟨200, [], (fun _ _ => (500, "", "err")), fun _ => 500⟩
        [("old", ⟨"1", "K"⟩)]
        (emojisToDelete [("old", ⟨"1", "K"⟩)] (localNames
          ⟨"d", ["a.png"], (fun p => if p = "d/a.png" then some "x" else none),
           (fun s => "H" ++ s), (fun s => "B" ++ s)⟩))).2 =
      (emojisToDelete [("old", ⟨"1", "K"⟩)] (localNames
          ⟨"d", ["a.png"], (fun p => if p = "d/a.png" then some "x" else none),
           (fun s => "H" ++ s), (fun s => "B" ++ s)⟩)).map (fun m =>
        Event.deleteReq (cacheIdOf [("old", ⟨"1", "K"⟩)] m)
          ((500 : Nat))) ∧
    cacheGet (processImagesInDirectory
        ⟨"d", ["a.png"], (fun p => if p = "d/a.png" then some "x" else none),
         (fun s => "H" ++ s), (fun s => "B" ++ s)⟩
        ⟨200, [], (fun _ _ => (500, "", "err")), fun _ => 500⟩
        [("old", ⟨"1", "K"⟩)]).1 "old" = none :=
  C6_delete_failure_cache _ _ _ (by decide) "old" (by decide)

/-- Claim C10: after a run, every key of the in-memory cache is the
logical name of some file of the directory listing that carries a
supported extension. -/
theorem C10_cache_key_invariant (env : Env) (svc : Service) (c : Cache)
    (hnd : (c.map Prod.fst).Nodup) :
    ∀ n e, cacheGet (processImagesInDirectory env svc c).1 n = some e →
      ∃ f ∈ env.listing, isImageFile f = true ∧ splitextRoot f = n := by
  intro n e hget
  by_cases hn : n ∈ localNames env
  · exact mem_localNames.mp hn
  · exfalso
    rw [run_get_stale hnd hn] at hget
    by_cases ht : n ∈ emojisToDelete c (localNames env)
    · simp [ht] at hget
    · rw [if_neg ht] at hget
      have hkeys : n ∈ c.map Prod.fst := mem_keys_iff_get.mpr (by simp [hget])
      cases hb : (localNames env).contains n with
      | false => exact ht (mem_emojisToDelete.mpr ⟨hkeys, hb⟩)
      | true => exact hn (contains_iff_mem.mp hb)

/-- Witness for C10: the key created by a run is the logical name of a
listed image file. -/
theorem C10_cache_key_invariant_witness :
    ∃ f ∈ ["a.png"], isImageFile f = true ∧ splitextRoot f = "a" :=
  C10_cache_key_invariant
    ⟨"d", ["a.png"], (fun p => if p = "d/a.png" then some "x" else none),
     (fun s => "H" ++ s), (fun s => "B" ++ s)⟩
    ⟨200, [], (fun _ _ => (201, "7", "")), fun _ => 204⟩
    [] (by decide) "a" ⟨"7", "Hx"⟩ (by decide)

/-- Claim C3: a cached name absent from the directory listing receives
exactly one delete request carrying its cached remote id, the deletion
pass's trace is one delete per stale name followed by a single save (no
per-deletion saves), and the name is gone from the cache after the run.
Hypotheses make the cache a well-formed dict whose stale ids are
pairwise distinct and distinct from the listed remote ids, so that
"exactly one delete call with that id" is meaningful. -/
theorem C3_deletion_batched (env : Env) (svc : Service) (c : Cache)
    (hnd : (c.map Prod.fst).Nodup) (n : String) (e : CacheEntry)
    (hentry : cacheGet c n = some e)
    (hstale : (localNames env).contains n = false)
    (hOther : ∀ m ∈ emojisToDelete c (localNames env),
      m ≠ n → cacheIdOf c m ≠ e.id)
    (hRemote : ∀ m ∈ svc.listBody, m.id ≠ e.id) :
    (∃ evP, (processImagesInDirectory env svc c).2 =
      Event.listReq svc.listStatus ::
        ((emojisToDelete c (localNames env)).map (fun m =>
          Event.deleteReq (cacheIdOf c m) (svc.deleteFn (cacheIdOf c m))) ++
         Event.save :: evP)) ∧
    ((processImagesInDirectory env svc c).2.filter
      (Event.isDeleteId e.id)).length = 1 ∧
    cacheGet (processImagesInDirectory env svc c).1 n = none := by
  have hmem : n ∈ emojisToDelete c (localNames env) :=
    mem_emojisToDelete.mpr ⟨mem_keys_iff_get.mpr (by simp [hentry]), hstale⟩
  have hstaleNot : n ∉ localNames env := by
    intro hcon
    rw [contains_iff_mem.mpr hcon] at hstale
    simp at hstale
  have htr := deletionPass_trace svc c (emojisToDelete c (localNames env))
    (emojisToDelete_nodup _ hnd) emojisToDelete_present
  have hrun2 : (processImagesInDirectory env svc c).2 =
      Event.listReq svc.listStatus ::
        ((emojisToDelete c (localNames env)).map (fun m =>
          Event.deleteReq (cacheIdOf c m) (svc.deleteFn (cacheIdOf c m))) ++
         Event.save ::
          (pass2 env svc (getApplicationEmojis svc).1
            (deletionPass svc c (emojisToDelete c (localNames env))).1
            (imageFiles env)).2) := by
    simp only [processImagesInDirectory, getApplicationEmojis_trace, htr]
    simp
  refine ⟨⟨_, hrun2⟩, ?_, ?_⟩
  · rw [hrun2]
    have hD : (((emojisToDelete c (localNames env)).map (fun m =>
        Event.deleteReq (cacheIdOf c m) (svc.deleteFn (cacheIdOf c m)))).filter
          (Event.isDeleteId e.id)).length = 1 := by
      rw [← List.countP_eq_length_filter, List.countP_map]
      have hcg : List.countP
          ((Event.isDeleteId e.id) ∘ (fun m =>
            Event.deleteReq (cacheIdOf c m) (svc.deleteFn (cacheIdOf c m))))
          (emojisToDelete c (localNames env)) =
          List.countP (fun m => m == n) (emojisToDelete c (localNames env)) := by
        refine List.countP_congr ?_
        intro m hm
        by_cases hmn : m = n
        · subst hmn
          simp [Event.isDeleteId, cacheIdOf, hentry]
        · simp [Event.isDeleteId, hOther m hm hmn, hmn]
      rw [hcg]
      have := List.count_eq_one_of_mem
        (emojisToDelete_nodup (localNames env) hnd) hmem
      simpa [List.count] using this
    have hP : ((pass2 env svc (getApplicationEmojis svc).1
        (deletionPass svc c (emojisToDelete c (localNames env))).1
        (imageFiles env)).2.filter (Event.isDeleteId e.id)) = [] := by
      rw [List.filter_eq_nil_iff]
      intro ev hev
      obtain ⟨f, _, hsh⟩ := pass2_events env svc _ _ _ ev hev
      rcases hsh with rfl | ⟨m, hfind, rfl⟩ | ⟨p, st, i, rfl⟩
      · simp [Event.isDeleteId]
      · have hm : m ∈ svc.listBody :=
          mem_getApplicationEmojis (List.mem_of_find?_eq_some hfind)
        simp [Event.isDeleteId, hRemote m hm]
      · simp [Event.isDeleteId]
    simp only [List.filter_cons, List.filter_append, hP]
    simpa [Event.isDeleteId] using hD
  · rw [run_get_stale hnd hstaleNot]
    simp [hmem]

/-- Witness for C3: a cache entry `old → id 1` with no `old.*` file left
gets one delete with id 1, a single batched save, and disappears. -/
theorem C3_deletion_batched_witness :
    (∃ evP, (processImagesInDirectory
        ⟨"d", ["a.png"], (fun p => if p = "d/a.png" then some "x" else none),
         (fun s => "H" ++ s), (fun s => "B" ++ s)⟩
        ⟨200, [], (fun _ _ => (201, "7", "")), fun _ => 204⟩
        [("old", ⟨"1", "K"⟩), ("a", ⟨"2", "Hx"⟩)]).2 =
      Event.listReq 200 ::
        ((emojisToDelete [("old", ⟨"1", "K"⟩), ("a", ⟨"2", "Hx"⟩)]
            (localNames ⟨"d", ["a.png"],
              (fun p => if p = "d/a.png" then some "x" else none),
              (fun s => "H" ++ s), (fun s => "B" ++ s)⟩)).map (fun m =>
          Event.deleteReq
            (cacheIdOf [("old", ⟨"1", "K"⟩), ("a", ⟨"2", "Hx"⟩)] m) 204) ++
         Event.save :: evP)) ∧
    ((processImagesInDirectory
        ⟨"d", ["a.png"], (fun p => if p = "d/a.png" then some "x" else none),
         (fun s => "H" ++ s), (fun s => "B" ++ s)⟩
        ⟨200, [], (fun _ _ => (201, "7", "")), fun _ => 204⟩
        [("old", ⟨"1", "K"⟩), ("a", ⟨"2", "Hx"⟩)]).2.filter
      (Event.isDeleteId "1")).length = 1 ∧
    cacheGet (processImagesInDirectory
        ⟨"d", ["a.png"], (fun p => if p = "d/a.png" then some "x" else none),
         (fun s => "H" ++ s), (fun s => "B" ++ s)⟩
        ⟨200, [], (fun _ _ => (201, "7", "")), fun _ => 204⟩
        [("old", ⟨"1", "K"⟩), ("a", ⟨"2", "Hx"⟩)]).1 "old" = none :=
  C3_deletion_batched _ _ _ (by decide) "old" ⟨"1", "K"⟩ (by decide)
    (by decide) (by decide) (by decide)

/-- Claim C9: a file of the listing is selected exactly when it ends in
one of the four literal suffixes `.png`, `.jpg`, `.jpeg`, `.gif`
(string equality of suffixes, hence case-sensitive: `.PNG` fails the
characterization), and the logical name of a selected file is the stem
left of its extension whenever that stem contains a non-dot character
(the `os.path.splitext` convention of what "the extension" is; a pure
dot-prefix name such as `.png` has no extension to remove). -/
theorem C9_extension_filtering (env : Env) (f : String) :
    (f ∈ imageFiles env ↔ f ∈ env.listing ∧ isImageFile f = true) ∧
    (isImageFile f = true ↔
      ∃ r : String, f = r ++ ".png" ∨ f = r ++ ".jpg" ∨
        f = r ++ ".jpeg" ∨ f = r ++ ".gif") ∧
    (∀ r ext : String, ext ∈ [".png", ".jpg", ".jpeg", ".gif"] →
      f = r ++ ext → r.data.any (fun ch => ch ≠ '.') = true →
      splitextRoot f = r) := by
  refine ⟨by simp [imageFiles, List.mem_filter], isImageFile_iff, ?_⟩
  intro r ext hext hf hr
  subst hf
  simp only [List.mem_cons, List.not_mem_nil, or_false] at hext
  rcases hext with rfl | rfl | rfl | rfl
  · exact splitextRoot_append r ['p', 'n', 'g'] (by decide) hr
  · exact splitextRoot_append r ['j', 'p', 'g'] (by decide) hr
  · exact splitextRoot_append r ['j', 'p', 'e', 'g'] (by decide) hr
  · exact splitextRoot_append r ['g', 'i', 'f'] (by decide) hr

/-- Witness for C9: `a.b.png` keeps the stem `a.b` as its logical name,
and `a.png` is selected while the upper-case `a.PNG` does not satisfy
the suffix characterization. -/
theorem C9_extension_filtering_witness :
    splitextRoot "a.b.png" = "a.b" ∧ isImageFile "a.png" = true :=
  ⟨(C9_extension_filtering ⟨"d", [], (fun _ => none), id, id⟩ "a.b.png").2.2
      "a.b" ".png" (by decide) (by decide) (by decide),
   (C9_extension_filtering ⟨"d", [], (fun _ => none), id, id⟩ "a.png").2.1.mpr
      ⟨"a", Or.inl (by decide)⟩⟩

/-- Counterexample to claim C5 as stated: with `a.png` unreadable, a
remote emoji named `a` (id 1) in the fetched listing and a cached
fingerprint for `a`, the run DOES issue a delete request for that name:
the failed fingerprint (`None`) differs from the cached key, so the
replacement branch fires and deletes the remote emoji before the create
is abandoned. -/
theorem C5_read_error_counterexample :
    (processImagesInDirectory
      ⟨"d", ["a.png"], (fun _ => none), (fun s => "H" ++ s),
       (fun s => "B" ++ s)⟩
      ⟨200, [⟨"1", "a"⟩], (fun _ _ => (201, "7", "")), fun _ => 204⟩
      [("a", ⟨"1", "K"⟩)]).2.filter Event.isDeleteReq =
      [Event.deleteReq "1" 204] := by decide

/-- Claim C5 (amended): an unreadable image never produces a create
request and leaves the cache entry of its name untouched, and the loop
simply proceeds (the step is total); however, when the fetched listing
has an emoji of that name AND the cache holds an entry for it, the step
issues exactly the one delete request of the replacement branch — only
when either of those is missing does the read failure leave the remote
untouched too. -/
theorem C5_read_error_isolation (env : Env) (svc : Service)
    (ex : List RemoteEmoji) (c : Cache) (f : String)
    (hfs : env.fs (joinPath env.dir f) = none) :
    (processFile env svc ex c f).1 = c ∧
    ((processFile env svc ex c f).2.filter Event.isCreateReq = []) ∧
    (∀ m, ex.find? (fun x => x.name == splitextRoot f) = some m →
      cacheGet c (splitextRoot f) ≠ none →
      processFile env svc ex c f =
        (c, [Event.deleteReq m.id (svc.deleteFn m.id)])) ∧
    (∀ m, ex.find? (fun x => x.name == splitextRoot f) = some m →
      cacheGet c (splitextRoot f) = none →
      processFile env svc ex c f = (c, [])) ∧
    (ex.find? (fun x => x.name == splitextRoot f) = none →
      processFile env svc ex c f = (c, [])) := by
  have hcreate : createApplicationEmoji env svc c (joinPath env.dir f)
      (splitextRoot f) = (none, c, []) := by
    simp [createApplicationEmoji, imageToBase64, hfs]
  have hstep : ∀ m, ex.find? (fun x => x.name == splitextRoot f) = some m →
      cacheGet c (splitextRoot f) ≠ none →
      processFile env svc ex c f =
        (c, [Event.deleteReq m.id (svc.deleteFn m.id)]) := by
    intro m hfind hget
    have hkey : (cacheGet c (splitextRoot f)).map CacheEntry.key ≠
        generateEmojiKey env (joinPath env.dir f) := by
      cases hc : cacheGet c (splitextRoot f) with
      | none => exact absurd hc hget
      | some e => simp [generateEmojiKey, hfs, hc]
    rw [processFile_eq_replace hfind hkey, hcreate]
    rfl
  have hnochange : ∀ m, ex.find? (fun x => x.name == splitextRoot f) = some m →
      cacheGet c (splitextRoot f) = none →
      processFile env svc ex c f = (c, []) := by
    intro m hfind hget
    exact processFile_eq_unchanged hfind (by simp [generateEmojiKey, hfs, hget])
  have hnone : ex.find? (fun x => x.name == splitextRoot f) = none →
      processFile env svc ex c f = (c, []) := by
    intro hfind
    rw [processFile_eq_create hfind, hcreate]
  have hall : (processFile env svc ex c f).1 = c ∧
      (processFile env svc ex c f).2.filter Event.isCreateReq = [] := by
    cases hfind : ex.find? (fun x => x.name == splitextRoot f) with
    | some m =>
      by_cases hget : cacheGet c (splitextRoot f) = none
      · rw [hnochange m hfind hget]
        exact ⟨rfl, rfl⟩
      · rw [hstep m hfind hget]
        exact ⟨rfl, rfl⟩
    | none =>
      rw [hnone hfind]
      exact ⟨rfl, rfl⟩
  exact ⟨hall.1, hall.2, hstep, hnochange, hnone⟩

/-- Witness for C5 (amended) at the counterexample's configuration: the
step keeps the cache, emits no create request, and emits exactly the
replacement delete. -/
theorem C5_read_error_isolation_witness :
    (processFile
      ⟨"d", ["a.png"], (fun _ => none), (fun s => "H" ++ s),
       (fun s => "B" ++ s)⟩
      ⟨200, [⟨"1", "a"⟩], (fun _ _ => (201, "7", "")), fun _ => 204⟩
      [⟨"1", "a"⟩] [("a", ⟨"1", "K"⟩)] "a.png") =
      ([("a", ⟨"1", "K"⟩)], [Event.deleteReq "1" 204]) :=
  (C5_read_error_isolation
    ⟨"d", ["a.png"], (fun _ => none), (fun s => "H" ++ s),
     (fun s => "B" ++ s)⟩
    ⟨200, [⟨"1", "a"⟩], (fun _ _ => (201, "7", "")), fun _ => 204⟩
    [⟨"1", "a"⟩] [("a", ⟨"1", "K"⟩)] "a.png" (by decide)).2.2.1
    ⟨"1", "a"⟩ (by decide) (by decide)

/-- Counterexample to claim C2 as stated: the name `a` has the cached
fingerprint `K`, the fetched listing has a remote emoji `a` (id 1), and
the local `a.png` now reads and hashes to a different fingerprint — but
the file is empty, so its base64 encoding is the falsy empty string: the
run issues the delete, then abandons the create before any request
(`filter isCreateFor "a"` is empty where the claim demands exactly one
create call), and the stale cache entry survives instead of holding a
new id and fingerprint. -/
theorem C2_replacement_counterexample :
    generateEmojiKey
      ⟨"d", ["a.png"], (fun p => if p = "d/a.png" then some "" else none),
       (fun s => "H" ++ s), (fun s => s)⟩ "d/a.png" = some "H" ∧
    (processImagesInDirectory
      ⟨"d", ["a.png"], (fun p => if p = "d/a.png" then some "" else none),
       (fun s => "H" ++ s), (fun s => s)⟩
      ⟨200, [⟨"1", "a"⟩], (fun _ _ => (201, "7", "")), fun _ => 204⟩
      [("a", ⟨"1", "K"⟩)]).2.filter (Event.isCreateFor "a") = [] ∧
    cacheGet (processImagesInDirectory
      ⟨"d", ["a.png"], (fun p => if p = "d/a.png" then some "" else none),
       (fun s => "H" ++ s), (fun s => s)⟩
      ⟨200, [⟨"1", "a"⟩], (fun _ _ => (201, "7", "")), fun _ => 204⟩
      [("a", ⟨"1", "K"⟩)]).1 "a" = some ⟨"1", "K"⟩ := by decide

/-- Claim C2 (amended): for a name with a cached fingerprint, a remote
emoji of that name in the fetched listing, and a local file whose
content reads, encodes non-emptily and hashes to a different
fingerprint, if the creation request is confirmed (201) then the run
issues exactly one delete request with the listed emoji's id,
immediately followed by the one create request for the name carrying the
new content's payload and by the cache save, and the final cache entry
holds the newly created id and the new fingerprint.  (Uniqueness of the
two requests across the run needs the logical names of the listed files
to be pairwise distinct and the ids to be non-colliding, both invariants
of the intended environment.) -/
theorem C2_replacement_correct (env : Env) (svc : Service) (c : Cache)
    (f : String)
    (hnd : (c.map Prod.fst).Nodup)
    (hnames : (localNames env).Nodup)
    (hf : f ∈ imageFiles env)
    (eOld : CacheEntry) (hentry : cacheGet c (splitextRoot f) = some eOld)
    (h200 : svc.listStatus = 200)
    (exm : RemoteEmoji)
    (hfind : svc.listBody.find? (fun x => x.name == splitextRoot f) = some exm)
    (ct : String) (hct : env.fs (joinPath env.dir f) = some ct)
    (hdiff : env.hash ct ≠ eOld.key)
    (hb64 : env.b64 ct ≠ "") (hhash : env.hash ct ≠ "")
    (h201 : (svc.createFn (splitextRoot f) (mkPayload (env.b64 ct))).1 = 201)
    (hidsRemote : ∀ m ∈ svc.listBody, m.id = exm.id → m.name = splitextRoot f)
    (hidsStale : ∀ m ∈ emojisToDelete c (localNames env),
      cacheIdOf c m ≠ exm.id) :
    (∃ pre post,
      (processImagesInDirectory env svc c).2 =
        pre ++ Event.deleteReq exm.id (svc.deleteFn exm.id) ::
          Event.createReq (splitextRoot f) (mkPayload (env.b64 ct)) 201
            (svc.createFn (splitextRoot f) (mkPayload (env.b64 ct))).2.1 ::
          Event.save :: post ∧
      pre.filter (Event.isDeleteId exm.id) = [] ∧
      post.filter (Event.isDeleteId exm.id) = [] ∧
      pre.filter (Event.isCreateFor (splitextRoot f)) = [] ∧
      post.filter (Event.isCreateFor (splitextRoot f)) = []) ∧
    cacheGet (processImagesInDirectory env svc c).1 (splitextRoot f) =
      some ⟨(svc.createFn (splitextRoot f) (mkPayload (env.b64 ct))).2.1,
        env.hash ct⟩ := by
  have hex : (getApplicationEmojis svc).1 = svc.listBody := by
    simp [getApplicationEmojis, h200]
  obtain ⟨l1, l2, hfiles⟩ := List.append_of_mem hf
  have hmapnd : (List.map splitextRoot l1 ++ splitextRoot f ::
      List.map splitextRoot l2).Nodup := by
    have h0 := hnames
    rw [localNames, hfiles, List.map_append, List.map_cons] at h0
    exact h0
  have hnotm1 : splitextRoot f ∉ List.map splitextRoot l1 := fun hcon =>
    (List.disjoint_of_nodup_append hmapnd) hcon (List.mem_cons_self _ _)
  have hnotm2 : splitextRoot f ∉ List.map splitextRoot l2 :=
    (List.nodup_cons.mp (List.Nodup.of_append_right hmapnd)).1
  have hne1 : ∀ g ∈ l1, splitextRoot f ≠ splitextRoot g := by
    intro g hg hcon
    rw [hcon] at hnotm1
    exact hnotm1 (List.mem_map_of_mem splitextRoot hg)
  have hne2 : ∀ g ∈ l2, splitextRoot f ≠ splitextRoot g := by
    intro g hg hcon
    rw [hcon] at hnotm2
    exact hnotm2 (List.mem_map_of_mem splitextRoot hg)
  have hnl : splitextRoot f ∈ localNames env :=
    List.mem_map_of_mem splitextRoot hf
  have hnstale : splitextRoot f ∉ emojisToDelete c (localNames env) := by
    intro hcon
    have h3 := (mem_emojisToDelete.mp hcon).2
    rw [contains_iff_mem.mpr hnl] at h3
    simp at h3
  have hDget : cacheGet (deletionPass svc c
      (emojisToDelete c (localNames env))).1 (splitextRoot f) =
      some eOld := by
    rw [deletionPass_get svc c _ hnd, if_neg hnstale]
    exact hentry
  have hfind2 : (getApplicationEmojis svc).1.find?
      (fun x => x.name == splitextRoot f) = some exm := by
    rw [hex]
    exact hfind
  have hrem2 : ∀ m ∈ (getApplicationEmojis svc).1,
      m.id = exm.id → m.name = splitextRoot f := by
    intro m hm hid
    rw [hex] at hm
    exact hidsRemote m hm hid
  obtain ⟨P, Q, htr, hPd, hQd, hPc, hQc, hcache⟩ :=
    pass2_replace_mid env svc (getApplicationEmojis svc).1
      (deletionPass svc c (emojisToDelete c (localNames env))).1
      l1 l2 f exm eOld ct hne1 hne2 hfind2 hDget hct hdiff hb64 hhash
      h201 hrem2
  have htrD := deletionPass_trace svc c (emojisToDelete c (localNames env))
    (emojisToDelete_nodup _ hnd) emojisToDelete_present
  refine ⟨⟨Event.listReq svc.listStatus ::
      ((deletionPass svc c (emojisToDelete c (localNames env))).2 ++
        Event.save :: P), Q, ?_, ?_, hQd, ?_, hQc⟩, ?_⟩
  · rw [run_eq]
    have hpass : (pass2 env svc (getApplicationEmojis svc).1
        (deletionPass svc c (emojisToDelete c (localNames env))).1
        (imageFiles env)).2 =
        P ++ Event.deleteReq exm.id (svc.deleteFn exm.id) ::
          Event.createReq (splitextRoot f) (mkPayload (env.b64 ct)) 201
            (svc.createFn (splitextRoot f) (mkPayload (env.b64 ct))).2.1 ::
          Event.save :: Q := by
      rw [hfiles]
      exact htr
    rw [hpass]
    simp
  · rw [htrD]
    simp only [List.filter_cons, List.filter_append]
    rw [deletionTrace_filter_deleteId svc c _ hidsStale, hPd]
    simp [Event.isDeleteId]
  · rw [htrD]
    simp only [List.filter_cons, List.filter_append]
    rw [deletionTrace_filter_createFor svc c _ (splitextRoot f), hPc]
    simp [Event.isCreateFor]
  · rw [run_eq]
    have hpass : cacheGet (pass2 env svc (getApplicationEmojis svc).1
        (deletionPass svc c (emojisToDelete c (localNames env))).1
        (imageFiles env)).1 (splitextRoot f) =
        some ⟨(svc.createFn (splitextRoot f) (mkPayload (env.b64 ct))).2.1,
          env.hash ct⟩ := by
      rw [hfiles]
      exact hcache
    exact hpass

/-- Witness for C2 (amended): cached `a → {id 1, key Hx}`, remote lists
`a` with id 1, the file now reads `"y"` (fingerprint `Hy`), creation is
confirmed with id 7: the run deletes id 1, creates `a` from the new
payload, and the cache ends at `{id 7, key Hy}`. -/
theorem C2_replacement_correct_witness :
    (∃ pre post,
      (processImagesInDirectory
        ⟨"d", ["a.png"], (fun p => if p = "d/a.png" then some "y" else none),
         (fun s => "H" ++ s), (fun s => "B" ++ s)⟩
        ⟨200, [⟨"1", "a"⟩], (fun _ _ => (201, "7", "")), fun _ => 204⟩
        [("a", ⟨"1", "Hx"⟩)]).2 =
        pre ++ Event.deleteReq "1" 204 ::
          Event.createReq "a" (mkPayload "By") 201 "7" ::
          Event.save :: post ∧
      pre.filter (Event.isDeleteId "1") = [] ∧
      post.filter (Event.isDeleteId "1") = [] ∧
      pre.filter (Event.isCreateFor "a") = [] ∧
      post.filter (Event.isCreateFor "a") = []) ∧
    cacheGet (processImagesInDirectory
      ⟨"d", ["a.png"], (fun p => if p = "d/a.png" then some "y" else none),
       (fun s => "H" ++ s), (fun s => "B" ++ s)⟩
      ⟨200, [⟨"1", "a"⟩], (fun _ _ => (201, "7", "")), fun _ => 204⟩
      [("a", ⟨"1", "Hx"⟩)]).1 "a" = some ⟨"7", "Hy"⟩ :=
  C2_replacement_correct
    ⟨"d", ["a.png"], (fun p => if p = "d/a.png" then some "y" else none),
     (fun s => "H" ++ s), (fun s => "B" ++ s)⟩
    ⟨200, [⟨"1", "a"⟩], (fun _ _ => (201, "7", "")), fun _ => 204⟩
    [("a", ⟨"1", "Hx"⟩)] "a.png" (by decide) (by decide) (by decide)
    ⟨"1", "Hx"⟩ (by decide) (by decide) ⟨"1", "a"⟩ (by decide)
    "y" (by decide) (by decide) (by decide) (by decide) (by decide)
    (by decide) (by decide)

/-- Claim C1 (amended): if one run completes with every operation
succeeding (listing 200, all reads and encodings usable, every issued
create confirmed 201 and every issued delete confirmed 204), the logical
names of the listed image files are pairwise distinct, the fetched
listing's ids are pairwise distinct, cached ids appearing in the listing
belong to the like-named emoji, and the service assigns fresh ids to
created emojis, then a second run against the unchanged directory and
the remote state resulting from the first run only lists and saves: it
issues no create and no delete request. -/
theorem C1_idempotence (env : Env) (svc svc2 : Service) (c : Cache)
    (hnd : (c.map Prod.fst).Nodup)
    (hnames : (localNames env).Nodup)
    (hread : ∀ f ∈ imageFiles env, readOk env f = true)
    (hsucc : ∀ ev ∈ (processImagesInDirectory env svc c).2,
      Event.success ev = true)
    (hremnd : (svc.listBody.map RemoteEmoji.id).Nodup)
    (hcacheids : ∀ n e, cacheGet c n = some e →
      ∀ m ∈ svc.listBody, m.id = e.id → m.name = n)
    (hfresh : ∀ ev ∈ (processImagesInDirectory env svc c).2, ∀ n p st i,
      ev = Event.createReq n p st i → i ∉ svc.listBody.map RemoteEmoji.id)
    (h2status : svc2.listStatus = 200)
    (h2body : svc2.listBody =
      remoteAfter svc.listBody (processImagesInDirectory env svc c).2) :
    (processImagesInDirectory env svc2
      (processImagesInDirectory env svc c).1).2 =
      [Event.listReq 200, Event.save] := by
  have hlmem : Event.listReq svc.listStatus ∈
      (processImagesInDirectory env svc c).2 := by
    rw [run_eq]
    exact List.mem_cons_self _ _
  have h200 : svc.listStatus = 200 := by
    have hs := hsucc _ hlmem
    simpa [Event.success] using hs
  have hex : (getApplicationEmojis svc).1 = svc.listBody := by
    simp [getApplicationEmojis, h200]
  have htrD := deletionPass_trace svc c (emojisToDelete c (localNames env))
    (emojisToDelete_nodup _ hnd) emojisToDelete_present
  have htr1 : (processImagesInDirectory env svc c).2 =
      Event.listReq svc.listStatus ::
        ((deletionPass svc c (emojisToDelete c (localNames env))).2 ++
         Event.save :: (pass2 env svc (getApplicationEmojis svc).1
           (deletionPass svc c (emojisToDelete c (localNames env))).1
           (imageFiles env)).2) := by
    rw [run_eq]
  have hsuccP : ∀ ev ∈ (pass2 env svc (getApplicationEmojis svc).1
      (deletionPass svc c (emojisToDelete c (localNames env))).1
      (imageFiles env)).2, Event.success ev = true := by
    intro ev hev
    apply hsucc
    rw [htr1]
    exact List.mem_cons_of_mem _
      (List.mem_append_right _ (List.mem_cons_of_mem _ hev))
  have hfreshP : ∀ ev ∈ (pass2 env svc (getApplicationEmojis svc).1
      (deletionPass svc c (emojisToDelete c (localNames env))).1
      (imageFiles env)).2, ∀ n p st i, ev = Event.createReq n p st i →
      i ∉ (getApplicationEmojis svc).1.map RemoteEmoji.id := by
    intro ev hev n p st i heq
    rw [hex]
    apply hfresh ev ?_ n p st i heq
    rw [htr1]
    exact List.mem_cons_of_mem _
      (List.mem_append_right _ (List.mem_cons_of_mem _ hev))
  have hDdel_shape : ∀ e ∈
      (deletionPass svc c (emojisToDelete c (localNames env))).2,
      Event.isCreateReq e = false := by
    rw [htrD]
    intro e he
    obtain ⟨m, _, heq⟩ := List.mem_map.mp he
    rw [← heq]
    rfl
  have hIR0 : ∀ x ∈ remoteAfter svc.listBody
      (deletionPass svc c (emojisToDelete c (localNames env))).2,
      x ∈ (getApplicationEmojis svc).1 ∨
        x.id ∉ (getApplicationEmojis svc).1.map RemoteEmoji.id := by
    intro x hx
    left
    rw [hex]
    exact remoteAfter_subset_of_no_create hDdel_shape x hx
  have hIex0 : ∀ f ∈ imageFiles env,
      ((getApplicationEmojis svc).1.find?
        (fun x => x.name == splitextRoot f)).isSome = true →
      ∃ m ∈ remoteAfter svc.listBody
        (deletionPass svc c (emojisToDelete c (localNames env))).2,
        m.name = splitextRoot f := by
    intro f hf hiss
    obtain ⟨m, hmfind⟩ := Option.isSome_iff_exists.mp hiss
    have hmex : m ∈ (getApplicationEmojis svc).1 :=
      List.mem_of_find?_eq_some hmfind
    have hmname : m.name = splitextRoot f := by
      have hp := List.find?_some hmfind
      rwa [beq_iff_eq] at hp
    have hmbody : m ∈ svc.listBody := by rwa [hex] at hmex
    refine ⟨m, ?_, hmname⟩
    apply remoteAfter_mem hmbody
    rw [htrD]
    intro e he i st heq
    obtain ⟨nm, hnm, heq2⟩ := List.mem_map.mp he
    have h12 : Event.deleteReq (cacheIdOf c nm)
        (svc.deleteFn (cacheIdOf c nm)) = Event.deleteReq i st :=
      heq2.trans heq
    have hinj : cacheIdOf c nm = i := by injection h12
    intro hcon
    cases hge : cacheGet c nm with
    | none =>
      exact (mem_keys_iff_get.mp (mem_emojisToDelete.mp hnm).1) hge
    | some e0 =>
      have hidOf : cacheIdOf c nm = e0.id := by simp [cacheIdOf, hge]
      have hid : m.id = e0.id := by rw [← hcon, ← hinj, hidOf]
      have hmn : m.name = nm := hcacheids nm e0 hge m hmbody hid
      have hnmf : nm = splitextRoot f := hmn.symm.trans hmname
      have hmemloc : splitextRoot f ∈ localNames env :=
        List.mem_map_of_mem splitextRoot hf
      have hcf := (mem_emojisToDelete.mp hnm).2
      rw [hnmf, contains_iff_mem.mpr hmemloc] at hcf
      simp at hcf
  have hexnd2 : ((getApplicationEmojis svc).1.map RemoteEmoji.id).Nodup := by
    rw [hex]
    exact hremnd
  have hsync := pass2_sync env svc (getApplicationEmojis svc).1 hexnd2
    (imageFiles env)
    (deletionPass svc c (emojisToDelete c (localNames env))).1
    (remoteAfter svc.listBody
      (deletionPass svc c (emojisToDelete c (localNames env))).2)
    hnames hread hsuccP hfreshP hIex0 hIR0
  have hrem2 : svc2.listBody = remoteAfter
      (remoteAfter svc.listBody
        (deletionPass svc c (emojisToDelete c (localNames env))).2)
      (pass2 env svc (getApplicationEmojis svc).1
        (deletionPass svc c (emojisToDelete c (localNames env))).1
        (imageFiles env)).2 := by
    rw [h2body, htr1]
    show remoteAfter svc.listBody
      ((deletionPass svc c (emojisToDelete c (localNames env))).2 ++
        Event.save :: (pass2 env svc (getApplicationEmojis svc).1
          (deletionPass svc c (emojisToDelete c (localNames env))).1
          (imageFiles env)).2) = _
    rw [remoteAfter_append]
    rfl
  have htoDel2 : emojisToDelete (processImagesInDirectory env svc c).1
      (localNames env) = [] := by
    unfold emojisToDelete
    rw [List.filter_eq_nil_iff]
    intro k hk
    cases hb : (localNames env).contains k with
    | true => simp [hb]
    | false =>
      exfalso
      have hklocal : k ∉ localNames env := by
        intro hcon
        rw [contains_iff_mem.mpr hcon] at hb
        cases hb
      exact (mem_keys_iff_get.mp hk)
        (run_get_none_of_not_local hnd hklocal)
  have hex2 : (getApplicationEmojis svc2).1 = svc2.listBody := by
    simp [getApplicationEmojis, h2status]
  have hcc2 : (processImagesInDirectory env svc c).1 =
      (pass2 env svc (getApplicationEmojis svc).1
        (deletionPass svc c (emojisToDelete c (localNames env))).1
        (imageFiles env)).1 := by
    rw [run_eq]
  have hp22 : pass2 env svc2 (getApplicationEmojis svc2).1
      (processImagesInDirectory env svc c).1 (imageFiles env) =
      ((processImagesInDirectory env svc c).1, []) := by
    apply pass2_all_unchanged
    · intro f hf
      obtain ⟨⟨m, hmR, hmn⟩, _⟩ := hsync f hf
      apply Option.isSome_iff_exists.mp
      apply List.find?_isSome.mpr
      refine ⟨m, ?_, by simp [hmn]⟩
      rw [hex2, hrem2]
      exact hmR
    · intro f hf
      obtain ⟨_, hc⟩ := hsync f hf
      rw [hcc2]
      simpa [generateEmojiKey] using hc
  rw [run_eq, htoDel2, h2status]
  have hdp0 : deletionPass svc2 (processImagesInDirectory env svc c).1
      ([] : List String) =
      ((processImagesInDirectory env svc c).1, []) := rfl
  rw [hdp0]
  simp [hp22]

/-- Counterexample to claim C1 as stated: two listed files `a.png` and
`a.jpg` share the logical name `a` with different contents.  The first
run against an empty remote and empty cache creates `a` twice, every
operation succeeding, and leaves the cache fingerprinting the second
file; with no changes to the directory or the remote state, the second
run finds the first file's fingerprint differing from the cached one and
issues a delete (and a create) — the reconciler is not idempotent. -/
theorem C1_idempotence_counterexample :
    (∀ ev ∈ (processImagesInDirectory
        ⟨"d", ["a.png", "a.jpg"],
         (fun p => if p = "d/a.png" then some "x" else
           if p = "d/a.jpg" then some "y" else none),
         (fun s => "H" ++ s), (fun s => "B" ++ s)⟩
        ⟨200, [], (fun _ p => (201, "id" ++ p, "")), fun _ => 204⟩ []).2,
      Event.success ev = true) ∧
    (∀ g ∈ imageFiles
        ⟨"d", ["a.png", "a.jpg"],
         (fun p => if p = "d/a.png" then some "x" else
           if p = "d/a.jpg" then some "y" else none),
         (fun s => "H" ++ s), (fun s => "B" ++ s)⟩,
      readOk
        ⟨"d", ["a.png", "a.jpg"],
         (fun p => if p = "d/a.png" then some "x" else
           if p = "d/a.jpg" then some "y" else none),
         (fun s => "H" ++ s), (fun s => "B" ++ s)⟩ g = true) ∧
    (processImagesInDirectory
        ⟨"d", ["a.png", "a.jpg"],
         (fun p => if p = "d/a.png" then some "x" else
           if p = "d/a.jpg" then some "y" else none),
         (fun s => "H" ++ s), (fun s => "B" ++ s)⟩
        ⟨200,
         remoteAfter []
           (processImagesInDirectory
             ⟨"d", ["a.png", "a.jpg"],
              (fun p => if p = "d/a.png" then some "x" else
                if p = "d/a.jpg" then some "y" else none),
              (fun s => "H" ++ s), (fun s => "B" ++ s)⟩
             ⟨200, [], (fun _ p => (201, "id" ++ p, "")), fun _ => 204⟩
             []).2,
         (fun _ p => (201, "id" ++ p, "")), fun _ => 204⟩
        (processImagesInDirectory
          ⟨"d", ["a.png", "a.jpg"],
           (fun p => if p = "d/a.png" then some "x" else
             if p = "d/a.jpg" then some "y" else none),
           (fun s => "H" ++ s), (fun s => "B" ++ s)⟩
          ⟨200, [], (fun _ p => (201, "id" ++ p, "")), fun _ => 204⟩
          []).1).2.filter Event.isDeleteReq ≠ [] := by decide

/-- Witness for C1 (amended) at a one-file directory: the first run
creates the emoji; the second run against the resulting remote state is
a pure no-op trace. -/
theorem C1_idempotence_witness :
    (processImagesInDirectory
      ⟨"d", ["a.png"], (fun p => if p = "d/a.png" then some "x" else none),
       (fun s => "H" ++ s), (fun s => "B" ++ s)⟩
      ⟨200,
       remoteAfter []
         (processImagesInDirectory
           ⟨"d", ["a.png"],
            (fun p => if p = "d/a.png" then some "x" else none),
            (fun s => "H" ++ s), (fun s => "B" ++ s)⟩
           ⟨200, [], (fun _ p => (201, "id" ++ p, "")), fun _ => 204⟩
           []).2,
       (fun _ p => (201, "id" ++ p, "")), fun _ => 204⟩
      (processImagesInDirectory
        ⟨"d", ["a.png"], (fun p => if p = "d/a.png" then some "x" else none),
         (fun s => "H" ++ s), (fun s => "B" ++ s)⟩
        ⟨200, [], (fun _ p => (201, "id" ++ p, "")), fun _ => 204⟩
        []).1).2 = [Event.listReq 200, Event.save] :=
  C1_idempotence
    ⟨"d", ["a.png"], (fun p => if p = "d/a.png" then some "x" else none),
     (fun s => "H" ++ s), (fun s => "B" ++ s)⟩
    ⟨200, [], (fun _ p => (201, "id" ++ p, "")), fun _ => 204⟩
    ⟨200,
     remoteAfter []
       (processImagesInDirectory
         ⟨"d", ["a.png"],
          (fun p => if p = "d/a.png" then some "x" else none),
          (fun s => "H" ++ s), (fun s => "B" ++ s)⟩
         ⟨200, [], (fun _ p => (201, "id" ++ p, "")), fun _ => 204⟩
         []).2,
     (fun _ p => (201, "id" ++ p, "")), fun _ => 204⟩
    [] (by decide) (by decide) (by decide) (by decide) (by decide)
    (by intro n e h; simp [cacheGet] at h)
    (by intro ev hev n p st i heq; simp) (by decide) (by decide)

/-! Sanity checks of the embedding on concrete inputs. -/

example : splitextRoot "a.png" = "a" := by decide
example : splitextRoot ".png" = ".png" := by decide
example : splitextRoot "a.b.png" = "a.b" := by decide
example : splitextRoot "a..png" = "a." := by decide
example : splitextRoot "..png" = "..png" := by decide
example : isImageFile "a.PNG" = false := by decide
example : isImageFile "a.jpeg" = true := by decide
example : isImageFile "png" = false := by decide
